import Mathlib

/-!
# Verification of the Basher snapshot/diff engine

Shallow embedding of `src/mode1.py` (baseline/snapshot builder) and
`src/mode2.py` (baseline loader and diff engine), together with proofs
settling the specification claims.

Modelling conventions:
* File contents and paths are Lean `String`s; sizes are byte counts modelled
  as `String.length` (ASCII contents, one byte per character).
* The walk of `os.walk` is modelled as a list of directories, each with its
  `relpath`-style relative directory and its directory-entry list.  Pruning a
  directory (`dirnames[:] = []`) is modelled by filtering each directory of
  the flat list independently: every skip criterion used by the code
  (string-prefix match, path length) is inherited by descendant directories,
  so per-directory filtering of the flat list yields the same file set as
  real pruning.
* `hashlib.sha256` is an external library collaborator (not part of the
  repository's own sources); it is modelled as an arbitrary digest function
  `sha : String → String` passed as a parameter.  Nothing is assumed about it
  beyond being a function (which gives determinism).
* Python exceptions are modelled with `Except`: `OSError` carries its
  `errno`, `ValueError` is a separate constructor.  Per-file reads are
  modelled as `Except Nat String` fields of the walk entries (error = the
  `errno` the read raises).
-/

namespace Basher

/-! ## Python string primitives (ASCII fragment used by the program) -/

/-- `s.startswith p` of Python: `p` is a literal string prefix of `s`. -/
def pyStartsWith (s p : String) : Bool :=
  p.data.isPrefixOf s.data

/-- `s.endswith p` of Python: `p` is a literal string suffix of `s`. -/
def pyEndsWith (s p : String) : Bool :=
  p.data.isSuffixOf s.data

/-- The ASCII whitespace characters removed by Python's `str.strip()`. -/
def isPySpace (c : Char) : Bool :=
  c = ' ' || c = '\t' || c = '\n' || c = '\x0b' || c = '\x0c' || c = '\r'

/-- `str.strip()` on a character list: drop whitespace at both ends. -/
def pyStripL (l : List Char) : List Char :=
  ((l.dropWhile isPySpace).reverse.dropWhile isPySpace).reverse

/-- `str.strip()`. -/
def pyStrip (s : String) : String :=
  ⟨pyStripL s.data⟩

/-- `s[:-n]` of Python for `n ≤ len(s)`: drop the last `n` characters. -/
def pyDropRight (s : String) (n : Nat) : String :=
  ⟨s.data.take (s.data.length - n)⟩

/-- `os.path.join(a, b)` of POSIX Python for the two-argument case:
an absolute `b` wins; otherwise a single `/` separates the parts
(none added when `a` is empty or already ends in `/`). -/
def pyJoin (a b : String) : String :=
  if pyStartsWith b "/" then b
  else if a = "" || pyEndsWith a "/" then a ++ b
  else a ++ "/" ++ b

/-- Splitting a character list into lines at `'\n'`, as `for line in f`
does (the code strips each line, so the trailing-newline convention of
Python's iteration and the extra empty fragment produced here coincide on
every line the parser can match). -/
def splitLinesL : List Char → List (List Char)
  | [] => [[]]
  | c :: rest =>
    if c = '\n' then [] :: splitLinesL rest
    else
      match splitLinesL rest with
      | [] => [[c]]
      | l :: ls => (c :: l) :: ls

/-! ## Python `int()` and decimal printing

`int(text)` is a Python builtin (external to the repository's sources); it
is modelled on the inputs that can arise here: optional surrounding
whitespace, an optional sign and a non-empty run of decimal digits; anything
else raises `ValueError` (modelled as `none`). -/

/-- Decimal digit test (`'0'` to `'9'`). -/
def isDigitCh (c : Char) : Bool :=
  48 ≤ c.toNat && c.toNat ≤ 57

/-- Value of a decimal digit character. -/
def digitVal (c : Char) : Nat :=
  c.toNat - 48

/-- Fold a digit run into the number it denotes. -/
def digitsToNat (l : List Char) : Nat :=
  l.foldl (fun acc c => 10 * acc + digitVal c) 0

/-- `int(text)`, `none` when Python raises `ValueError`. -/
def pyIntL (l : List Char) : Option Int :=
  let t := pyStripL l
  match t with
  | '-' :: rest =>
    if rest ≠ [] && rest.all isDigitCh then some (-(digitsToNat rest : Int)) else none
  | '+' :: rest =>
    if rest ≠ [] && rest.all isDigitCh then some ((digitsToNat rest : Int)) else none
  | _ =>
    if t ≠ [] && t.all isDigitCh then some ((digitsToNat t : Int)) else none

/-- The decimal digit character for `d < 10`. -/
def digitChar (d : Nat) : Char :=
  if d = 0 then '0' else if d = 1 then '1' else if d = 2 then '2'
  else if d = 3 then '3' else if d = 4 then '4' else if d = 5 then '5'
  else if d = 6 then '6' else if d = 7 then '7' else if d = 8 then '8' else '9'

/-- Decimal printing with explicit fuel (any fuel above the argument is
enough); models the `f"{size}"` formatting of a byte count. -/
def natReprAux : Nat → Nat → List Char
  | 0, _ => []
  | fuel + 1, n =>
    if n < 10 then [digitChar n]
    else natReprAux fuel (n / 10) ++ [digitChar (n % 10)]

/-- Decimal printing of a natural number, as Python's `str`/f-string. -/
def natRepr (n : Nat) : String :=
  ⟨natReprAux (n + 1) n⟩

theorem digitVal_digitChar {d : Nat} (h : d < 10) : digitVal (digitChar d) = d := by
  interval_cases d <;> rfl

theorem isDigitCh_digitChar {d : Nat} (h : d < 10) : isDigitCh (digitChar d) = true := by
  interval_cases d <;> rfl

theorem natReprAux_ne_nil {fuel n : Nat} (h : n < fuel) : natReprAux fuel n ≠ [] := by
  cases fuel with
  | zero => omega
  | succ m =>
    unfold natReprAux
    split
    · simp
    · simp

theorem natReprAux_all_digits {fuel n : Nat} (h : n < fuel) :
    (natReprAux fuel n).all isDigitCh = true := by
  induction fuel generalizing n with
  | zero => omega
  | succ m ih =>
    unfold natReprAux
    split
    · next hn => simp [isDigitCh_digitChar hn]
    · next hn =>
      have hd : n / 10 < m := by omega
      have h10 : n % 10 < 10 := Nat.mod_lt _ (by omega)
      simp [List.all_append, ih hd, isDigitCh_digitChar h10]

theorem digitsToNat_append_digit (l : List Char) (c : Char) :
    digitsToNat (l ++ [c]) = 10 * digitsToNat l + digitVal c := by
  simp [digitsToNat, List.foldl_append]

theorem digitsToNat_natReprAux {fuel n : Nat} (h : n < fuel) :
    digitsToNat (natReprAux fuel n) = n := by
  induction fuel generalizing n with
  | zero => omega
  | succ m ih =>
    unfold natReprAux
    split
    · next hn =>
      simp [digitsToNat, digitVal_digitChar hn]
    · next hn =>
      have hd : n / 10 < m := by omega
      have h10 : n % 10 < 10 := Nat.mod_lt _ (by omega)
      rw [digitsToNat_append_digit, ih hd, digitVal_digitChar h10, Nat.div_add_mod]

theorem not_isPySpace_of_isDigitCh {c : Char} (h : isDigitCh c = true) :
    isPySpace c = false := by
  simp only [isPySpace, Bool.or_eq_false_iff, decide_eq_false_iff_not]
  refine ⟨⟨⟨⟨⟨?_, ?_⟩, ?_⟩, ?_⟩, ?_⟩, ?_⟩ <;>
    · intro hc; subst hc; revert h; decide

theorem dropWhile_eq_self_of_all_not {p : Char → Bool} {l : List Char}
    (h : ∀ c ∈ l, p c = false) : l.dropWhile p = l := by
  cases l with
  | nil => rfl
  | cons c rest =>
    rw [List.dropWhile_cons_of_neg]
    simp [h c (by simp)]

theorem pyStripL_eq_self_of_all_digits {l : List Char}
    (h : l.all isDigitCh = true) : pyStripL l = l := by
  have hns : ∀ c ∈ l, isPySpace c = false := by
    intro c hc
    exact not_isPySpace_of_isDigitCh (by simpa using (List.all_eq_true.mp h c hc))
  unfold pyStripL
  rw [dropWhile_eq_self_of_all_not hns,
    dropWhile_eq_self_of_all_not (by intro c hc; exact hns c (by simpa using hc)),
    List.reverse_reverse]

theorem isDigitCh_ne_sign {c : Char} (h : isDigitCh c = true) : c ≠ '-' ∧ c ≠ '+' := by
  constructor <;> · intro hc; subst hc; revert h; decide

/-- Round trip: parsing the decimal printing of a byte count recovers it.
This is the fact that makes the `SIZE:` sidecar line self-inverse. -/
theorem pyIntL_natRepr (n : Nat) : pyIntL (natRepr n).data = some (n : Int) := by
  have hlt : n < n + 1 := Nat.lt_succ_self n
  have hall : (natReprAux (n + 1) n).all isDigitCh = true := natReprAux_all_digits hlt
  have hne : natReprAux (n + 1) n ≠ [] := natReprAux_ne_nil hlt
  have hstrip : pyStripL (natReprAux (n + 1) n) = natReprAux (n + 1) n :=
    pyStripL_eq_self_of_all_digits hall
  unfold pyIntL
  simp only [natRepr, hstrip]
  obtain ⟨c, rest, hcr⟩ : ∃ c rest, natReprAux (n + 1) n = c :: rest := by
    cases hx : natReprAux (n + 1) n with
    | nil => exact absurd hx hne
    | cons c rest => exact ⟨c, rest, rfl⟩
  have hcd : isDigitCh c = true := by
    have := List.all_eq_true.mp hall c (by rw [hcr]; simp)
    simpa using this
  obtain ⟨hm, hp⟩ := isDigitCh_ne_sign hcd
  rw [hcr]
  split
  · next rest1 heq =>
    exact absurd (List.cons_eq_cons.mp heq).1 hm
  · next rest1 heq =>
    exact absurd (List.cons_eq_cons.mp heq).1 hp
  · next h1 h2 =>
    have hcond : ((c :: rest : List Char) ≠ [] && (c :: rest).all isDigitCh) = true := by
      rw [← hcr]; simp [hall, hne]
    rw [if_pos hcond, ← hcr, digitsToNat_natReprAux hlt]

/-! ## Shared constants and data model (`mode1.py`, `mode2.py`) -/

/-- `SIZE_THRESHOLD = 1 * 1024 * 1024` (both files). -/
def SIZE_THRESHOLD : Nat := 1 * 1024 * 1024

/-- The `SKIP_DIRS` constant of `mode1.py`, also inlined (plus the baseline
directory) as `skip_dirs` in `mode2.py`.  A Python `set`; element order is
irrelevant to every use (`in` and `any(... for ...)`). -/
def SKIP_DIRS : List String :=
  ["/proc", "/sys", "/dev", "/run", "/tmp", "/var/run"]

/-- One entry of `baseline_info`: the loader's per-file record. -/
structure FileRecord where
  is_large : Bool
  hash : Option String
  size : Option Int
deriving DecidableEq

/-- `baseline_info`: a Python dict keyed by baseline-relative path.
Modelled as an association list with Python's dict semantics: insertion
order is kept, overwriting a key keeps its original position. -/
abbrev Dict := List (String × FileRecord)

/-- `d[k] = v` with dict semantics (replace in place, else append). -/
def dictInsert : Dict → String → FileRecord → Dict
  | [], k, v => [(k, v)]
  | (k', v') :: rest, k, v =>
    if k' = k then (k, v) :: rest else (k', v') :: dictInsert rest k v

/-- `d.get(k)` / `k in d` lookup. -/
def dictFind : Dict → String → Option FileRecord
  | [], _ => none
  | (k', v') :: rest, k => if k' = k then some v' else dictFind rest k

/-- The keys of a dict in iteration order. -/
def dictKeys (d : Dict) : List String := d.map (·.1)

/-- A file of the on-disk baseline tree: the directory it sits in
(relative to the baseline root, `''` for the root itself), its name, and
its byte content. -/
structure StoreEntry where
  relDir : String
  name : String
  content : String
deriving DecidableEq

/-- The baseline tree on disk, in the order `os.walk` enumerates it. -/
abbrev Store := List StoreEntry

/-- Writing a file: replace an existing file at the same directory/name,
otherwise create it. -/
def storeInsert : Store → String → String → String → Store
  | [], d, n, c => [⟨d, n, c⟩]
  | e :: rest, d, n, c =>
    if e.relDir = d ∧ e.name = n then ⟨d, n, c⟩ :: rest
    else e :: storeInsert rest d n c

/-- Content of the file at directory `d`, name `n`, if present. -/
def storeFindPair (st : Store) (d n : String) : Option String :=
  match st with
  | [] => none
  | e :: rest => if e.relDir = d ∧ e.name = n then some e.content else storeFindPair rest d n

/-- The absolute directory `os.walk` reports for a relative directory:
the root itself for `''`, otherwise the joined path. -/
def dirAbs (root relDir : String) : String :=
  if relDir = "" then root else pyJoin root relDir

/-- Absolute path of a store entry under the baseline root. -/
def entryAbs (base : String) (e : StoreEntry) : String :=
  pyJoin (dirAbs base e.relDir) e.name

/-- `os.path.isfile(p)`/`open(p)` on the baseline tree: look a file up by
its absolute path. -/
def storeFindAbs (base : String) (st : Store) (p : String) : Option String :=
  match st with
  | [] => none
  | e :: rest => if entryAbs base e = p then some e.content else storeFindAbs base rest p

/-- Python exceptions relevant to the engine. -/
inductive PyErr where
  | osError (errno : Nat)
  | valueError
deriving DecidableEq

/-! ## Directory filters (Path Filter)

`mode1.py` lines 58-73 and `mode2.py` lines 128-141.  Both are
string-prefix matches on the absolute directory path; only `mode2`
additionally bounds the path length. -/

/-- The build walk's skip decision (`mode1.py` lines 64 and 70): skip when
the absolute directory starts with the baseline directory, is a member of
`SKIP_DIRS`, or starts with one of its elements.  There is no path-length
check here. -/
def mode1DirSkip (baselineDir absDir : String) : Bool :=
  (pyStartsWith absDir baselineDir || SKIP_DIRS.contains absDir)
    || SKIP_DIRS.any (fun sd => pyStartsWith absDir sd)

/-- The diff walk's skip decision (`mode2.py` lines 132 and 138): the
`skip_dirs` set is `SKIP_DIRS` plus the baseline directory, matched by
string prefix; separately, directories whose absolute path is longer than
255 characters are pruned. -/
def mode2DirSkip (baselineDir absDir : String) : Bool :=
  (baselineDir :: SKIP_DIRS).any (fun sd => pyStartsWith absDir sd)
    || absDir.length > 255

/-! ## Snapshot Builder (`mode1.py` `mode1`) -/

instance instDecidableEqExcept {ε α : Type} [DecidableEq ε] [DecidableEq α] :
    DecidableEq (Except ε α) := fun a b =>
  match a, b with
  | .error x, .error y =>
    if h : x = y then .isTrue (by rw [h]) else .isFalse (by intro hc; cases hc; exact h rfl)
  | .error _, .ok _ => .isFalse (by intro hc; cases hc)
  | .ok _, .error _ => .isFalse (by intro hc; cases hc)
  | .ok x, .ok y =>
    if h : x = y then .isTrue (by rw [h]) else .isFalse (by intro hc; cases hc; exact h rfl)

/-- A directory entry seen by the build walk.  `read` is the combined
outcome of `os.path.getsize`/`open`/`shutil.copy2` on the file: `.ok` its
byte content, `.error e` an `OSError` with that errno (any exception is
caught by the per-file `except`). -/
structure SrcFile where
  name : String
  isFile : Bool
  read : Except Nat String
deriving DecidableEq

/-- One directory of the build walk. -/
structure SrcDir where
  relDir : String
  files : List SrcFile
deriving DecidableEq

/-- `HASH: .. / SIZE: ..` sidecar text written for a large file
(`mode1.py` line 96). -/
def sidecarText (h : String) (size : Nat) : String :=
  "HASH: " ++ h ++ "\n" ++ "SIZE: " ++ natRepr size ++ "\n"

/-- Per-file step of the build (`mode1.py` lines 83-101): non-regular
entries are skipped; any per-file exception is printed and absorbed;
above the threshold a `.hash` sidecar is written, otherwise the file is
copied verbatim. -/
def mode1ProcessFile (sha : String → String) (st : Store) (relDir : String)
    (f : SrcFile) : Store :=
  if !f.isFile then st
  else
    match f.read with
    | .error _ => st
    | .ok c =>
      if c.length > SIZE_THRESHOLD then
        storeInsert st relDir (f.name ++ ".hash") (sidecarText (sha c) c.length)
      else
        storeInsert st relDir f.name c

/-- The build's file loop over one directory. -/
def mode1Files (sha : String → String) (relDir : String) (st : Store) :
    List SrcFile → Store
  | [] => st
  | f :: rest => mode1Files sha relDir (mode1ProcessFile sha st relDir f) rest

/-- One directory of the build walk: apply the skip decision, then process
the files. -/
def mode1Dir (sha : String → String) (root baselineDir : String) (st : Store)
    (d : SrcDir) : Store :=
  if mode1DirSkip baselineDir (dirAbs root d.relDir) then st
  else mode1Files sha d.relDir st d.files

/-- The build walk (`mode1.py` lines 58-101): fold over the walked
directories.  Archiving and cleanup (tar/rmtree) are external collaborators
and out of scope. -/
def mode1Build (sha : String → String) (root baselineDir : String) :
    List SrcDir → Store → Store
  | [], st => st
  | d :: rest, st => mode1Build sha root baselineDir rest (mode1Dir sha root baselineDir st d)

/-! ## Snapshot Loader (`mode2.py` `load_baseline`) -/

/-- The parse loop over a sidecar's lines (`mode2.py` lines 43-51): each
stripped line starting with `HASH: ` overwrites the hash, each one starting
with `SIZE: ` overwrites the size via `int(...)`; a non-integer `SIZE:`
payload raises `ValueError` (uncaught by the surrounding
`except OSError`). -/
def parseSidecarLines : List (List Char) → Option String → Option Int →
    Except PyErr (Option String × Option Int)
  | [], h, s => .ok (h, s)
  | line :: rest, h, s =>
    let t := pyStripL line
    if ("HASH: ".data).isPrefixOf t then
      parseSidecarLines rest (some ⟨t.drop 6⟩) s
    else if ("SIZE: ".data).isPrefixOf t then
      match pyIntL (t.drop 6) with
      | some v => parseSidecarLines rest h (some v)
      | none => .error .valueError
    else
      parseSidecarLines rest h s

/-- Parse a whole sidecar file's content. -/
def parseSidecar (content : String) : Except PyErr (Option String × Option Int) :=
  parseSidecarLines (splitLinesL content.data) none none

/-- Load one walked baseline file (`mode2.py` lines 24-71): skip paths
longer than 255 characters; a `.hash` name is parsed as a large-file
record keyed by the name with the suffix stripped; anything else becomes a
small-file record whose size is its on-disk size. -/
def loadEntry (base : String) (info : Dict) (e : StoreEntry) : Except PyErr Dict :=
  let full := pyJoin (dirAbs base e.relDir) e.name
  if full.length > 255 then .ok info
  else if pyEndsWith e.name ".hash" then
    let baseName := pyDropRight e.name 5
    let relFile := pyJoin e.relDir baseName
    match parseSidecar e.content with
    | .error err => .error err
    | .ok (h, s) => .ok (dictInsert info relFile ⟨true, h, s⟩)
  else
    .ok (dictInsert info (pyJoin e.relDir e.name) ⟨false, none, some (e.content.length : Int)⟩)

/-- The loader's walk over the baseline tree. -/
def loadAux (base : String) (info : Dict) : Store → Except PyErr Dict
  | [] => .ok info
  | e :: rest =>
    match loadEntry base info e with
    | .error err => .error err
    | .ok info' => loadAux base info' rest

/-- `load_baseline` (`mode2.py` lines 13-81). -/
def loadBaseline (base : String) (st : Store) : Except PyErr Dict :=
  loadAux base [] st

/-! ## Diff Engine (`mode2.py` `mode2`) -/

/-- A directory entry seen by the diff walk, with the outcome of reading
its content for digesting. -/
structure LiveFile where
  name : String
  isFile : Bool
  read : Except Nat String
deriving DecidableEq

/-- One directory of the diff walk. -/
structure LiveDir where
  relDir : String
  files : List LiveFile
deriving DecidableEq

/-- One printed diff record.  `modifiedMissing` is the
`MODIFIED (missing baseline copy)` line — a `MODIFIED` report with an
explanatory suffix in its kind field. -/
inductive DiffOut where
  | newF (p : String)
  | modified (p : String)
  | modifiedMissing (p : String)
  | unchanged (p : String)
  | removed (p : String)
deriving DecidableEq

/-- The printed line for a diff record (`mode2.py` lines 164-200). -/
def renderOut : DiffOut → String
  | .newF p => "NEW: " ++ p
  | .modified p => "MODIFIED: " ++ p
  | .modifiedMissing p => "MODIFIED (missing baseline copy): " ++ p
  | .unchanged p => "UNCHANGED: " ++ p
  | .removed p => "REMOVED: " ++ p

/-- `current_hash == info["hash"]` — Python `==` against a possibly-`None`
stored hash is `False` when the hash is absent. -/
def hashMatches (d : String) : Option String → Bool
  | some h => d = h
  | none => false

/-- Classify one walked live file (`mode2.py` lines 148-192).  Result:
`(emitted record, addition to seen_baseline_paths)`, or the `OSError`
errno the iteration re-raises.  Too-long and non-regular paths are skipped
silently; an errno-36 digest failure in the large branch is absorbed with
a diagnostic (no diff record); in the small branch `compare_small_files`
turns errno 36 into `False` (hence `MODIFIED`); any other `OSError`
propagates. -/
def mode2File (sha : String → String) (root base : String) (store : Store)
    (info : Dict) (relDir : String) (f : LiveFile) :
    Except Nat (Option DiffOut × Option String) :=
  let absDir := dirAbs root relDir
  let cur := pyJoin absDir f.name
  if cur.length > 255 then .ok (none, none)
  else if !f.isFile then .ok (none, none)
  else
    let rel := pyJoin relDir f.name
    match dictFind info rel with
    | none => .ok (some (.newF cur), some rel)
    | some r =>
      if r.is_large then
        match f.read with
        | .error e => if e = 36 then .ok (none, some rel) else .error e
        | .ok c =>
          .ok (some (if hashMatches (sha c) r.hash then .unchanged cur else .modified cur),
            some rel)
      else
        match storeFindAbs base store (pyJoin base rel) with
        | none => .ok (some (.modifiedMissing cur), some rel)
        | some bc =>
          match f.read with
          | .error e => if e = 36 then .ok (some (.modified cur), some rel) else .error e
          | .ok c =>
            .ok (some (if sha c = sha bc then .unchanged cur else .modified cur), some rel)

/-- The diff's file loop over one directory, accumulating output records
and the seen set. -/
def mode2Files (sha : String → String) (root base : String) (store : Store)
    (info : Dict) (relDir : String) :
    List LiveFile → List DiffOut → List String → Except Nat (List DiffOut × List String)
  | [], outs, seen => .ok (outs, seen)
  | f :: rest, outs, seen =>
    match mode2File sha root base store info relDir f with
    | .error e => .error e
    | .ok (o, s) => mode2Files sha root base store info relDir rest (outs ++ o.toList) (seen ++ s.toList)

/-- The diff walk over all directories (`mode2.py` lines 128-192). -/
def mode2Dirs (sha : String → String) (root base : String) (store : Store)
    (info : Dict) :
    List LiveDir → List DiffOut → List String → Except Nat (List DiffOut × List String)
  | [], outs, seen => .ok (outs, seen)
  | d :: rest, outs, seen =>
    if mode2DirSkip base (dirAbs root d.relDir) then
      mode2Dirs sha root base store info rest outs seen
    else
      match mode2Files sha root base store info d.relDir d.files outs seen with
      | .error e => .error e
      | .ok (outs', seen') => mode2Dirs sha root base store info rest outs' seen'

/-- The removed pass (`mode2.py` lines 194-200): every baseline path not
seen during the walk is printed as `REMOVED` with the baseline directory
joined in front of it. -/
def removedPass (base : String) (info : Dict) (seen : List String) : List DiffOut :=
  info.filterMap (fun kv => if seen.contains kv.1 then none else some (.removed (pyJoin base kv.1)))

/-- `mode2` (`mode2.py` lines 98-200): load the baseline, walk the live
tree, then emit the removed records. -/
def mode2Run (sha : String → String) (root base : String) (store : Store)
    (walk : List LiveDir) : Except PyErr (List DiffOut × List String) :=
  match loadBaseline base store with
  | .error err => .error err
  | .ok info =>
    match mode2Dirs sha root base store info walk [] [] with
    | .error e => .error (.osError e)
    | .ok (outs, seen) => .ok (outs ++ removedPass base info seen, seen)

/-! ## Infrastructure lemmas -/

theorem string_ext {a b : String} (h : a.data = b.data) : a = b := by
  cases a; cases b; exact congrArg String.mk h

theorem string_append_cancel_right {a b c : String} (h : a ++ c = b ++ c) : a = b := by
  apply string_ext
  have hd : a.data ++ c.data = b.data ++ c.data := congrArg String.data h
  exact List.append_cancel_right hd

theorem string_length_append (a b : String) : (a ++ b).length = a.length + b.length :=
  List.length_append a.data b.data

theorem storeFindPair_storeInsert (st : Store) (d n c d' n' : String) :
    storeFindPair (storeInsert st d n c) d' n' =
      if d = d' ∧ n = n' then some c else storeFindPair st d' n' := by
  induction st with
  | nil =>
    by_cases h : d = d' ∧ n = n' <;> simp [storeInsert, storeFindPair, h]
  | cons e rest ih =>
    by_cases h1 : e.relDir = d ∧ e.name = n
    · rw [storeInsert, if_pos h1]
      by_cases h2 : d = d' ∧ n = n'
      · simp [storeFindPair, h2]
      · rw [if_neg h2, storeFindPair, if_neg (by simpa using h2), storeFindPair,
          if_neg (by rw [h1.1, h1.2]; simpa using h2)]
    · rw [storeInsert, if_neg h1]
      by_cases h2 : e.relDir = d' ∧ e.name = n'
      · have h3 : ¬ (d = d' ∧ n = n') := by
          rintro ⟨rfl, rfl⟩; exact h1 h2
        rw [storeFindPair, if_pos h2, if_neg h3, storeFindPair, if_pos h2]
      · rw [storeFindPair, if_neg h2, ih]
        by_cases h3 : d = d' ∧ n = n'
        · rw [if_pos h3, if_pos h3]
        · rw [if_neg h3, if_neg h3, storeFindPair, if_neg h2]

theorem dictFind_dictInsert (d : Dict) (k : String) (v : FileRecord) (k' : String) :
    dictFind (dictInsert d k v) k' = if k = k' then some v else dictFind d k' := by
  induction d with
  | nil => by_cases h : k = k' <;> simp [dictInsert, dictFind, h]
  | cons kv rest ih =>
    obtain ⟨k0, v0⟩ := kv
    by_cases h1 : k0 = k
    · subst h1
      rw [dictInsert, if_pos rfl]
      by_cases h2 : k0 = k'
      · subst h2; simp [dictFind]
      · simp [dictFind, h2]
    · rw [dictInsert, if_neg h1]
      by_cases h2 : k0 = k'
      · subst h2
        have h3 : ¬ k = k0 := fun hc => h1 hc.symm
        simp [dictFind, h3]
      · simp [dictFind, h2, ih]

theorem dictKeys_dictInsert (d : Dict) (k : String) (v : FileRecord) :
    dictKeys (dictInsert d k v) =
      if k ∈ dictKeys d then dictKeys d else dictKeys d ++ [k] := by
  induction d with
  | nil => simp [dictInsert, dictKeys]
  | cons kv rest ih =>
    obtain ⟨k0, v0⟩ := kv
    by_cases h1 : k0 = k
    · subst h1; simp [dictInsert, dictKeys]
    · rw [dictInsert, if_neg h1]
      have h2 : (k ∈ dictKeys ((k0, v0) :: rest)) = (k ∈ dictKeys rest) := by
        simp [dictKeys]
        intro hc
        exact absurd hc.symm h1
      by_cases h3 : k ∈ dictKeys rest
      · simp only [dictKeys, List.map_cons] at *
        rw [if_pos (by simpa [h2] using h3)]
        rw [if_pos h3] at ih
        simpa using ih
      · simp only [dictKeys, List.map_cons] at *
        rw [if_neg (by simpa [h2] using h3)]
        rw [if_neg h3] at ih
        simpa using ih

theorem dictKeys_nodup_dictInsert {d : Dict} (h : (dictKeys d).Nodup)
    (k : String) (v : FileRecord) : (dictKeys (dictInsert d k v)).Nodup := by
  rw [dictKeys_dictInsert]
  by_cases hk : k ∈ dictKeys d
  · rwa [if_pos hk]
  · rw [if_neg hk]
    simpa [List.nodup_append] using ⟨h, hk⟩

/-! ## C1: per-file classification of the Diff Engine -/

/-- C1: for every file yielded by the live walk (a regular file whose
absolute path fits the length ceiling and whose content reads back as
`c`): a path absent from the index is `NEW` regardless of content; a
`Large` record compares recomputed digests (`UNCHANGED` iff they match,
where an absent stored digest never matches); a `Small` record with a
missing stored copy is reported as a `MODIFIED` record (the code prints it
as `MODIFIED (missing baseline copy)`), with no exception; otherwise the
digests of the live file and the stored copy are compared
(`UNCHANGED`/`MODIFIED`). -/
theorem c1_diff_classification (sha : String → String) (root base : String)
    (store : Store) (info : Dict) (relDir : String) (f : LiveFile) (c : String)
    (hlen : (pyJoin (dirAbs root relDir) f.name).length ≤ 255)
    (hreg : f.isFile = true) (hread : f.read = .ok c) :
    (dictFind info (pyJoin relDir f.name) = none →
      mode2File sha root base store info relDir f =
        .ok (some (.newF (pyJoin (dirAbs root relDir) f.name)), some (pyJoin relDir f.name))) ∧
    (∀ r, dictFind info (pyJoin relDir f.name) = some r → r.is_large = true →
      mode2File sha root base store info relDir f =
        .ok (some (if hashMatches (sha c) r.hash then
              .unchanged (pyJoin (dirAbs root relDir) f.name)
            else .modified (pyJoin (dirAbs root relDir) f.name)),
          some (pyJoin relDir f.name))) ∧
    (∀ r, dictFind info (pyJoin relDir f.name) = some r → r.is_large = false →
      storeFindAbs base store (pyJoin base (pyJoin relDir f.name)) = none →
      mode2File sha root base store info relDir f =
        .ok (some (.modifiedMissing (pyJoin (dirAbs root relDir) f.name)),
          some (pyJoin relDir f.name))) ∧
    (∀ r bc, dictFind info (pyJoin relDir f.name) = some r → r.is_large = false →
      storeFindAbs base store (pyJoin base (pyJoin relDir f.name)) = some bc →
      mode2File sha root base store info relDir f =
        .ok (some (if sha c = sha bc then
              .unchanged (pyJoin (dirAbs root relDir) f.name)
            else .modified (pyJoin (dirAbs root relDir) f.name)),
          some (pyJoin relDir f.name))) := by
  have hc : ¬ (pyJoin (dirAbs root relDir) f.name).length > 255 := by omega
  refine ⟨?_, ?_, ?_, ?_⟩
  · intro hfind
    simp [mode2File, hc, hreg, hfind]
  · intro r hfind hlarge
    simp [mode2File, hc, hreg, hfind, hlarge, hread]
  · intro r hfind hsmall hmiss
    simp [mode2File, hc, hreg, hfind, hsmall, hmiss]
  · intro r bc hfind hsmall hcopy
    simp [mode2File, hc, hreg, hfind, hsmall, hcopy, hread]

/-- Witness for C1 at concrete inputs: one instance per branch. -/
theorem c1_diff_classification_witness :
    mode2File (fun _ => "h") "/r" "/b" [] [] "" ⟨"n.txt", true, .ok "x"⟩ =
        .ok (some (.newF "/r/n.txt"), some "n.txt") ∧
    mode2File (fun _ => "h") "/r" "/b" [] [("f", ⟨true, some "h", none⟩)] "" ⟨"f", true, .ok "x"⟩ =
        .ok (some (.unchanged "/r/f"), some "f") ∧
    mode2File (fun _ => "h") "/r" "/b" [] [("s", ⟨false, none, some 1⟩)] "" ⟨"s", true, .ok "x"⟩ =
        .ok (some (.modifiedMissing "/r/s"), some "s") ∧
    mode2File (fun _ => "h") "/r" "/b" [⟨"", "s", "y"⟩] [("s", ⟨false, none, some 1⟩)] ""
        ⟨"s", true, .ok "x"⟩ =
        .ok (some (.unchanged "/r/s"), some "s") := by
  refine ⟨?_, ?_, ?_, ?_⟩
  · exact (c1_diff_classification (fun _ => "h") "/r" "/b" [] [] "" ⟨"n.txt", true, .ok "x"⟩ "x"
      (by decide) rfl rfl).1 (by decide)
  · exact (c1_diff_classification (fun _ => "h") "/r" "/b" [] [("f", ⟨true, some "h", none⟩)] ""
      ⟨"f", true, .ok "x"⟩ "x" (by decide) rfl rfl).2.1 ⟨true, some "h", none⟩ (by decide) rfl
  · exact (c1_diff_classification (fun _ => "h") "/r" "/b" [] [("s", ⟨false, none, some 1⟩)] ""
      ⟨"s", true, .ok "x"⟩ "x" (by decide) rfl rfl).2.2.1 ⟨false, none, some 1⟩ (by decide) rfl rfl
  · exact (c1_diff_classification (fun _ => "h") "/r" "/b" [⟨"", "s", "y"⟩]
      [("s", ⟨false, none, some 1⟩)] "" ⟨"s", true, .ok "x"⟩ "x" (by decide) rfl rfl).2.2.2
      ⟨false, none, some 1⟩ "y" (by decide) rfl (by decide)

/-! ## C9: the threshold boundary of the Snapshot Builder -/

/-- C9: a regular file whose size is exactly `1048576` bytes is stored by
the build as a full-content copy under its own name (and no `.hash`
sidecar is created for it); a `.hash` sidecar is written exactly when the
size is strictly greater than the threshold. -/
theorem c9_threshold_boundary (sha : String → String) (st : Store)
    (relDir name c : String) (hat : c.length = 1048576) :
    mode1ProcessFile sha st relDir ⟨name, true, .ok c⟩ = storeInsert st relDir name c ∧
    storeFindPair (mode1ProcessFile sha st relDir ⟨name, true, .ok c⟩) relDir name = some c ∧
    storeFindPair (mode1ProcessFile sha st relDir ⟨name, true, .ok c⟩) relDir (name ++ ".hash") =
      storeFindPair st relDir (name ++ ".hash") ∧
    (∀ c' : String, mode1ProcessFile sha st relDir ⟨name, true, .ok c'⟩ =
        storeInsert st relDir (name ++ ".hash") (sidecarText (sha c') c'.length) ↔
          c'.length > SIZE_THRESHOLD ∨
            storeInsert st relDir (name ++ ".hash") (sidecarText (sha c') c'.length) =
              storeInsert st relDir name c') := by
  have hname : name ≠ name ++ ".hash" := by
    intro h
    have h2 := congrArg String.length h
    rw [string_length_append] at h2
    have h5 : (".hash" : String).length = 5 := rfl
    omega
  have heq : mode1ProcessFile sha st relDir ⟨name, true, .ok c⟩ = storeInsert st relDir name c := by
    simp [mode1ProcessFile, SIZE_THRESHOLD, hat]
  refine ⟨heq, ?_, ?_, ?_⟩
  · rw [heq, storeFindPair_storeInsert, if_pos ⟨rfl, rfl⟩]
  · rw [heq, storeFindPair_storeInsert, if_neg (fun h => hname h.2)]
  · intro c'
    constructor
    · intro h
      by_cases hgt : c'.length > SIZE_THRESHOLD
      · exact Or.inl hgt
      · refine Or.inr ?_
        rw [← h]
        simp [mode1ProcessFile, hgt]
    · rintro (hgt | hsame)
      · simp [mode1ProcessFile, hgt]
      · by_cases hgt : c'.length > SIZE_THRESHOLD
        · simp [mode1ProcessFile, hgt]
        · rw [hsame]
          simp [mode1ProcessFile, hgt]

/-- Witness for C9 at a concrete file of exactly 1 MiB. -/
theorem c9_threshold_boundary_witness :
    mode1ProcessFile (fun _ => "h") [] "" ⟨"f", true, .ok ⟨List.replicate 1048576 'a'⟩⟩ =
      storeInsert [] "" "f" ⟨List.replicate 1048576 'a'⟩ := by
  exact (c9_threshold_boundary (fun _ => "h") [] "" "f" ⟨List.replicate 1048576 'a'⟩
    (List.length_replicate 1048576 'a')).1

/-! ## C4: the Path Filter's matching discipline -/

/-- Modelled from the spec: a path "equals or is nested under" a root in
the path-component sense — it is the root itself, or continues it past a
`/` separator. -/
def isDescendantOrSelf (root p : String) : Bool :=
  p = root || pyStartsWith p (root ++ "/")

theorem pyStartsWith_refl (s : String) : pyStartsWith s s = true := by
  simp [pyStartsWith, List.isPrefixOf_iff_prefix]

theorem pyStartsWith_trans {a b c : String} (h1 : pyStartsWith b a = true)
    (h2 : pyStartsWith c b = true) : pyStartsWith c a = true := by
  simp only [pyStartsWith, List.isPrefixOf_iff_prefix] at *
  exact h1.trans h2

theorem pyStartsWith_append_right (a b : String) : pyStartsWith (a ++ b) a = true := by
  simp [pyStartsWith, List.isPrefixOf_iff_prefix]

/-- Soundness half of the claim, which does hold: a path equal to or
path-component-nested under a skip root is skipped. -/
theorem isDescendantOrSelf_startsWith {root p : String}
    (h : isDescendantOrSelf root p = true) : pyStartsWith p root = true := by
  simp only [isDescendantOrSelf, Bool.or_eq_true, decide_eq_true_eq] at h
  rcases h with h | h
  · subst h; exact pyStartsWith_refl p
  · exact pyStartsWith_trans (pyStartsWith_append_right root "/") h

/-- C4 counterexample: the absolute path `/tmpx` is skipped by the diff
walk's filter (its string starts with the excluded root `/tmp`), although
it is neither equal to nor a path-component descendant of any excluded
root or of the storage root `/b`, and its length is far below the
ceiling.  The claim's "only if" direction is false: matching is plain
string-prefix, not path-component nesting. -/
theorem c4_counterexample :
    mode2DirSkip "/b" "/tmpx" = true ∧
    ("/b" :: SKIP_DIRS).all (fun sd => !(isDescendantOrSelf sd "/tmpx")) = true ∧
    "/tmpx".length ≤ 255 := by
  decide

/-- C4 amended: the filters match by string prefix, not path-component
nesting.  The diff walk skips a directory iff some member of
`skip_dirs` (the storage root plus the excluded roots) is a string prefix
of its absolute path, or the path exceeds 255 characters; the build walk
skips iff the storage root or an excluded root is a string prefix (with
no length ceiling at all); and every path that equals or is
path-component-nested under such a root is indeed skipped (the claim's
"if" direction). -/
theorem c4_prefix_filter (base p : String) :
    (mode2DirSkip base p = true ↔
      (∃ sd ∈ base :: SKIP_DIRS, pyStartsWith p sd = true) ∨ p.length > 255) ∧
    (mode1DirSkip base p = true ↔
      pyStartsWith p base = true ∨ ∃ sd ∈ SKIP_DIRS, pyStartsWith p sd = true) ∧
    (∀ sd ∈ base :: SKIP_DIRS, isDescendantOrSelf sd p = true → mode2DirSkip base p = true) := by
  refine ⟨?_, ?_, ?_⟩
  · simp [mode2DirSkip, List.any_eq_true]
  · constructor
    · intro h
      simp only [mode1DirSkip, Bool.or_eq_true, List.any_eq_true] at h
      rcases h with (h | h) | h
      · exact Or.inl h
      · refine Or.inr ⟨p, ?_, pyStartsWith_refl p⟩
        simpa using h
      · exact Or.inr h
    · intro h
      simp only [mode1DirSkip, Bool.or_eq_true, List.any_eq_true]
      rcases h with h | h
      · exact Or.inl (Or.inl h)
      · exact Or.inr h
  · intro sd hsd h
    simp only [mode2DirSkip, Bool.or_eq_true, List.any_eq_true]
    exact Or.inl ⟨sd, hsd, isDescendantOrSelf_startsWith h⟩

/-- Witness for C4 amended at concrete inputs. -/
theorem c4_prefix_filter_witness :
    mode2DirSkip "/b" "/proc/1" = true ∧ mode1DirSkip "/b" "/b/data" = true := by
  constructor
  · exact (c4_prefix_filter "/b" "/proc/1").1.mpr (Or.inl ⟨"/proc", by decide, by decide⟩)
  · exact (c4_prefix_filter "/b" "/b/data").2.1.mpr (Or.inl (by decide))

/-! ## Path-shape lemmas -/

theorem pyStartsWith_iff (s p : String) : pyStartsWith s p = true ↔ p.data <+: s.data := by
  simp [pyStartsWith, List.isPrefixOf_iff_prefix]

theorem pyEndsWith_iff (s p : String) : pyEndsWith s p = true ↔ p.data <:+ s.data := by
  simp [pyEndsWith, List.isSuffixOf_iff_suffix]

theorem singleton_prefix_iff_head (l : List Char) (c : Char) : [c] <+: l ↔ l.head? = some c := by
  cases l with
  | nil => simp
  | cons d t => simp [List.cons_prefix_cons, eq_comm]

theorem startsWith_slash_iff (s : String) :
    pyStartsWith s "/" = true ↔ s.data.head? = some '/' := by
  rw [pyStartsWith_iff]
  exact singleton_prefix_iff_head s.data '/'

theorem startsWith_slash_false_iff (s : String) :
    pyStartsWith s "/" = false ↔ ¬ s.data.head? = some '/' := by
  rw [← Bool.not_eq_true, startsWith_slash_iff]

theorem endsWith_slash_iff (s : String) :
    pyEndsWith s "/" = true ↔ s.data.getLast? = some '/' := by
  rw [pyEndsWith_iff]
  constructor
  · rintro ⟨pre, hpre⟩
    rw [← hpre, List.getLast?_append_of_ne_nil pre (by simp)]
    rfl
  · intro h
    have hne : s.data ≠ [] := by
      intro hc; rw [hc] at h; simp at h
    have hlast : s.data.getLast hne = '/' := by
      have := List.getLast?_eq_getLast s.data hne
      rw [this] at h
      simpa using h
    refine ⟨s.data.dropLast, ?_⟩
    show s.data.dropLast ++ ['/'] = s.data
    rw [← hlast]
    exact List.dropLast_append_getLast hne

theorem endsWith_slash_false_iff (s : String) :
    pyEndsWith s "/" = false ↔ ¬ s.data.getLast? = some '/' := by
  rw [← Bool.not_eq_true, endsWith_slash_iff]

theorem string_eq_empty_iff {s : String} : s = "" ↔ s.data = [] := by
  constructor
  · rintro rfl; rfl
  · intro h; exact string_ext h

theorem string_append_cancel_left {a b c : String} (h : a ++ b = a ++ c) : b = c := by
  apply string_ext
  have hd : a.data ++ b.data = a.data ++ c.data := congrArg String.data h
  exact List.append_cancel_left hd

theorem pyJoin_std {a b : String} (ha1 : a ≠ "") (ha2 : pyEndsWith a "/" = false)
    (hb : pyStartsWith b "/" = false) : pyJoin a b = a ++ "/" ++ b := by
  rw [pyJoin, if_neg (by simp [hb]), if_neg (by simp [ha1, ha2])]

theorem pyJoin_empty_left {b : String} (hb : pyStartsWith b "/" = false) :
    pyJoin "" b = b := by
  rw [pyJoin, if_neg (by simp [hb]), if_pos (by simp)]
  exact string_ext rfl

theorem pyJoin_right_inj {base k1 k2 : String} (hb1 : base ≠ "")
    (hb2 : pyEndsWith base "/" = false)
    (h1 : pyStartsWith k1 "/" = false) (h2 : pyStartsWith k2 "/" = false)
    (h : pyJoin base k1 = pyJoin base k2) : k1 = k2 := by
  rw [pyJoin_std hb1 hb2 h1, pyJoin_std hb1 hb2 h2] at h
  exact string_append_cancel_left h

theorem pyJoin_ne_of_base_ne {b1 b2 k : String} (h1 : b1 ≠ "")
    (h2 : pyEndsWith b1 "/" = false) (h3 : b2 ≠ "") (h4 : pyEndsWith b2 "/" = false)
    (hk : pyStartsWith k "/" = false) (hne : b1 ≠ b2) :
    pyJoin b1 k ≠ pyJoin b2 k := by
  rw [pyJoin_std h1 h2 hk, pyJoin_std h3 h4 hk]
  intro hc
  exact hne (string_append_cancel_right (string_append_cancel_right
    (by rwa [String.append_assoc, String.append_assoc,
      ← String.append_assoc b1, ← String.append_assoc b2] at hc)))

theorem string_append_ne_empty_right {a b : String} (hb : b ≠ "") : a ++ b ≠ "" := by
  intro h
  have hd : (a ++ b).data = [] := string_eq_empty_iff.mp h
  exact hb (string_eq_empty_iff.mpr (List.append_eq_nil.mp (by simpa using hd)).2)

theorem pyJoin_shape {d n : String} (hd : pyStartsWith d "/" = false)
    (hn : pyStartsWith n "/" = false) (hne : n ≠ "") :
    pyJoin d n ≠ "" ∧ pyStartsWith (pyJoin d n) "/" = false := by
  by_cases hde : d = ""
  · subst hde
    rw [pyJoin_empty_left hn]
    exact ⟨hne, hn⟩
  · by_cases hds : pyEndsWith d "/" = true
    · rw [pyJoin, if_neg (by simp [hn]), if_pos (by simp [hds])]
      constructor
      · exact fun h => hne (by
          rw [string_eq_empty_iff] at h ⊢
          exact (List.append_eq_nil.mp (by simpa using h)).2)
      · rw [startsWith_slash_false_iff] at hd ⊢
        have hdne : d.data ≠ [] := by
          intro hc; exact hde (string_eq_empty_iff.mpr hc)
        have : (d ++ n).data.head? = d.data.head? := by
          show (d.data ++ n.data).head? = d.data.head?
          exact List.head?_append_of_ne_nil d.data hdne
        rw [this]
        exact hd
    · rw [pyJoin_std hde (by simpa using hds) hn]
      constructor
      · exact string_append_ne_empty_right hne
      · rw [startsWith_slash_false_iff] at hd ⊢
        have hdne : d.data ≠ [] := by
          intro hc; exact hde (string_eq_empty_iff.mpr hc)
        have : (d ++ "/" ++ n).data.head? = d.data.head? := by
          show ((d.data ++ "/".data) ++ n.data).head? = d.data.head?
          rw [List.head?_append_of_ne_nil _ (by simp [hdne]),
            List.head?_append_of_ne_nil _ hdne]
        rw [this]
        exact hd

/-! ## Loader structure lemmas -/

theorem loadEntry_ok_cases {base : String} {info : Dict} {e : StoreEntry} {info' : Dict}
    (h : loadEntry base info e = .ok info') :
    (info' = info ∧ (entryAbs base e).length > 255) ∨
    ((entryAbs base e).length ≤ 255 ∧
      ((∃ hh ss, pyEndsWith e.name ".hash" = true ∧ parseSidecar e.content = .ok (hh, ss) ∧
        info' = dictInsert info (pyJoin e.relDir (pyDropRight e.name 5)) ⟨true, hh, ss⟩) ∨
       (pyEndsWith e.name ".hash" = false ∧
        info' = dictInsert info (pyJoin e.relDir e.name)
          ⟨false, none, some (e.content.length : Int)⟩))) := by
  unfold loadEntry at h
  by_cases hlen : (pyJoin (dirAbs base e.relDir) e.name).length > 255
  · rw [if_pos hlen] at h
    simp only [Except.ok.injEq] at h
    exact Or.inl ⟨h.symm, hlen⟩
  · rw [if_neg hlen] at h
    have hlen2 : ¬ (entryAbs base e).length > 255 := hlen
    refine Or.inr ⟨by omega, ?_⟩
    by_cases hh : pyEndsWith e.name ".hash" = true
    · rw [if_pos (by simp [hh])] at h
      cases hps : parseSidecar e.content with
      | error err => rw [hps] at h; cases h
      | ok pr =>
        obtain ⟨hh0, ss0⟩ := pr
        rw [hps] at h
        simp only [Except.ok.injEq] at h
        exact Or.inl ⟨hh0, ss0, hh, rfl, h.symm⟩
    · rw [if_neg (by simp [hh])] at h
      simp only [Except.ok.injEq] at h
      exact Or.inr ⟨by simpa using hh, h.symm⟩

theorem loadAux_nodup {base : String} {st : Store} {info info' : Dict}
    (h : loadAux base info st = .ok info') (hn : (dictKeys info).Nodup) :
    (dictKeys info').Nodup := by
  induction st generalizing info with
  | nil =>
    unfold loadAux at h
    simp only [Except.ok.injEq] at h
    rwa [← h]
  | cons e rest ih =>
    unfold loadAux at h
    cases hle : loadEntry base info e with
    | error err => rw [hle] at h; cases h
    | ok info1 =>
      rw [hle] at h
      rcases loadEntry_ok_cases hle with ⟨heq, -⟩ | ⟨-, ⟨hh, ss, -, -, heq⟩ | ⟨-, heq⟩⟩
      · exact ih h (heq ▸ hn)
      · exact ih h (heq ▸ dictKeys_nodup_dictInsert hn _ _)
      · exact ih h (heq ▸ dictKeys_nodup_dictInsert hn _ _)

theorem loadBaseline_nodup {base : String} {st : Store} {info : Dict}
    (h : loadBaseline base st = .ok info) : (dictKeys info).Nodup :=
  loadAux_nodup h (by simp [dictKeys])

theorem loadAux_find_provenance {base : String} {st : Store} {info info' : Dict}
    (h : loadAux base info st = .ok info') :
    ∀ k r, dictFind info' k = some r →
      dictFind info k = some r ∨
      ∃ e, e ∈ st ∧ (entryAbs base e).length ≤ 255 ∧
        ((pyEndsWith e.name ".hash" = true ∧
            k = pyJoin e.relDir (pyDropRight e.name 5) ∧ r.is_large = true) ∨
         (pyEndsWith e.name ".hash" = false ∧ k = pyJoin e.relDir e.name ∧
            r.is_large = false)) := by
  induction st generalizing info with
  | nil =>
    intro k r hk
    unfold loadAux at h
    simp only [Except.ok.injEq] at h
    exact Or.inl (h ▸ hk)
  | cons e rest ih =>
    intro k r hk
    unfold loadAux at h
    cases hle : loadEntry base info e with
    | error err => rw [hle] at h; cases h
    | ok info1 =>
      rw [hle] at h
      rcases ih h k r hk with hfind | ⟨e', he', hlen', hcase⟩
      · rcases loadEntry_ok_cases hle with ⟨heq, -⟩ | ⟨hlen, ⟨hh, ss, hsuf, -, heq⟩ | ⟨hsuf, heq⟩⟩
        · exact Or.inl (heq ▸ hfind)
        · rw [heq, dictFind_dictInsert] at hfind
          by_cases hkk : pyJoin e.relDir (pyDropRight e.name 5) = k
          · rw [if_pos hkk] at hfind
            refine Or.inr ⟨e, by simp, hlen, Or.inl ⟨hsuf, hkk.symm, ?_⟩⟩
            simp only [Option.some.injEq] at hfind
            rw [← hfind]
          · rw [if_neg hkk] at hfind
            exact Or.inl hfind
        · rw [heq, dictFind_dictInsert] at hfind
          by_cases hkk : pyJoin e.relDir e.name = k
          · rw [if_pos hkk] at hfind
            refine Or.inr ⟨e, by simp, hlen, Or.inr ⟨hsuf, hkk.symm, ?_⟩⟩
            simp only [Option.some.injEq] at hfind
            rw [← hfind]
          · rw [if_neg hkk] at hfind
            exact Or.inl hfind
      · exact Or.inr ⟨e', by simp [he'], hlen', hcase⟩

/-! ## Removed-pass lemmas -/

theorem removedPass_eq_map (base : String) (info : Dict) (seen : List String) :
    removedPass base info seen =
      ((dictKeys info).filter (fun k => !seen.contains k)).map
        (fun k => DiffOut.removed (pyJoin base k)) := by
  induction info with
  | nil => rfl
  | cons kv rest ih =>
    have ih' := ih
    simp only [removedPass] at ih'
    simp only [removedPass, List.filterMap_cons, dictKeys, List.map_cons, List.filter_cons]
    by_cases h : seen.contains kv.1
    · have hf : (!seen.contains kv.1) = false := by rw [h]; rfl
      rw [if_pos h, if_neg (by rw [hf]; simp)]
      exact ih'
    · have ht : seen.contains kv.1 = false := by simpa using h
      rw [if_neg h, if_pos (by rw [ht]; rfl)]
      rw [List.map_cons]
      exact congrArg _ ih'

theorem removedPass_mem {base : String} {info : Dict} {seen : List String} :
    ∀ o ∈ removedPass base info seen, ∃ k, k ∈ dictKeys info ∧
      seen.contains k = false ∧ o = DiffOut.removed (pyJoin base k) := by
  intro o ho
  rw [removedPass_eq_map] at ho
  obtain ⟨k, hk, rfl⟩ := List.mem_map.mp ho
  obtain ⟨hk1, hk2⟩ := List.mem_filter.mp hk
  exact ⟨k, hk1, by simpa using hk2, rfl⟩

theorem removedPass_count_eq_one {base : String} {info : Dict} {seen : List String}
    (hn : (dictKeys info).Nodup) (hb1 : base ≠ "") (hb2 : pyEndsWith base "/" = false)
    (hkeys : ∀ k ∈ dictKeys info, pyStartsWith k "/" = false)
    {k : String} (hk : k ∈ dictKeys info) (hns : seen.contains k = false) :
    (removedPass base info seen).count (DiffOut.removed (pyJoin base k)) = 1 := by
  rw [removedPass_eq_map]
  have hfn : ((dictKeys info).filter (fun x => !seen.contains x)).Nodup := hn.filter _
  have hinj : ∀ x ∈ (dictKeys info).filter (fun x => !seen.contains x),
      ∀ y ∈ (dictKeys info).filter (fun x => !seen.contains x),
      DiffOut.removed (pyJoin base x) = DiffOut.removed (pyJoin base y) → x = y := by
    intro x hx y hy hxy
    have hx1 := (List.mem_filter.mp hx).1
    have hy1 := (List.mem_filter.mp hy).1
    exact pyJoin_right_inj hb1 hb2 (hkeys x hx1) (hkeys y hy1)
      (by simpa using hxy)
  have hmem : DiffOut.removed (pyJoin base k) ∈
      ((dictKeys info).filter (fun x => !seen.contains x)).map
        (fun x => DiffOut.removed (pyJoin base x)) :=
    List.mem_map.mpr ⟨k, List.mem_filter.mpr ⟨hk, by simpa using hns⟩, rfl⟩
  exact List.count_eq_one_of_mem (hfn.map_on hinj) hmem

theorem removedPass_not_mem_of_seen {base : String} {info : Dict} {seen : List String}
    (hb1 : base ≠ "") (hb2 : pyEndsWith base "/" = false)
    (hkeys : ∀ k ∈ dictKeys info, pyStartsWith k "/" = false)
    {k : String} (hkshape : pyStartsWith k "/" = false) (hs : seen.contains k = true) :
    DiffOut.removed (pyJoin base k) ∉ removedPass base info seen := by
  intro hmem
  obtain ⟨k', hk', hns', heq⟩ := removedPass_mem _ hmem
  have : k' = k := pyJoin_right_inj hb1 hb2 (hkeys k' hk') hkshape (by simpa using heq.symm)
  rw [this] at hns'
  rw [hs] at hns'
  cases hns'

/-! ## The walk phase emits no `REMOVED` record -/

theorem mode2File_ok_not_removed {sha : String → String} {root base : String} {store : Store}
    {info : Dict} {relDir : String} {f : LiveFile} {o : DiffOut} {s : Option String}
    (h : mode2File sha root base store info relDir f = .ok (some o, s)) (p : String) :
    o ≠ DiffOut.removed p := by
  intro hc
  subst hc
  unfold mode2File at h
  by_cases h1 : (pyJoin (dirAbs root relDir) f.name).length > 255
  · rw [if_pos h1] at h; simp at h
  rw [if_neg h1] at h
  by_cases h2 : (!f.isFile) = true
  · rw [if_pos h2] at h; simp at h
  rw [if_neg h2] at h
  simp only [] at h
  cases hfind : dictFind info (pyJoin relDir f.name) with
  | none => simp only [hfind] at h; simp at h
  | some r =>
    simp only [hfind] at h
    by_cases h3 : r.is_large = true
    · rw [if_pos h3] at h
      cases hread : f.read with
      | error e =>
        simp only [hread] at h
        split at h <;> simp_all
      | ok c =>
        simp only [hread] at h
        simp only [Except.ok.injEq, Prod.mk.injEq, Option.some.injEq] at h
        obtain ⟨ha, -⟩ := h
        split at ha <;> simp at ha
    · rw [if_neg h3] at h
      cases hcopy : storeFindAbs base store (pyJoin base (pyJoin relDir f.name)) with
      | none => simp only [hcopy] at h; simp at h
      | some bc =>
        simp only [hcopy] at h
        cases hread : f.read with
        | error e =>
          simp only [hread] at h
          split at h <;> simp_all
        | ok c =>
          simp only [hread] at h
          simp only [Except.ok.injEq, Prod.mk.injEq, Option.some.injEq] at h
          obtain ⟨ha, -⟩ := h
          split at ha <;> simp at ha

theorem mode2Files_no_removed {sha : String → String} {root base : String} {store : Store}
    {info : Dict} {relDir : String} {fs : List LiveFile} {outs seen : List _}
    {outs' seen' : List _}
    (h : mode2Files sha root base store info relDir fs outs seen = .ok (outs', seen'))
    (hout : ∀ p, DiffOut.removed p ∉ outs) : ∀ p, DiffOut.removed p ∉ outs' := by
  induction fs generalizing outs seen with
  | nil =>
    unfold mode2Files at h
    simp only [Except.ok.injEq, Prod.mk.injEq] at h
    intro p
    rw [← h.1]
    exact hout p
  | cons f rest ih =>
    unfold mode2Files at h
    cases hf : mode2File sha root base store info relDir f with
    | error e => rw [hf] at h; cases h
    | ok os =>
      obtain ⟨o, s⟩ := os
      rw [hf] at h
      refine ih h ?_
      intro p hp
      rcases List.mem_append.mp hp with hp | hp
      · exact hout p hp
      · cases o with
        | none => simp at hp
        | some o0 =>
          simp only [Option.toList_some, List.mem_singleton] at hp
          exact mode2File_ok_not_removed hf p hp.symm

theorem mode2Dirs_no_removed {sha : String → String} {root base : String} {store : Store}
    {info : Dict} {walk : List LiveDir} {outs seen : List _} {outs' seen' : List _}
    (h : mode2Dirs sha root base store info walk outs seen = .ok (outs', seen'))
    (hout : ∀ p, DiffOut.removed p ∉ outs) : ∀ p, DiffOut.removed p ∉ outs' := by
  induction walk generalizing outs seen with
  | nil =>
    unfold mode2Dirs at h
    simp only [Except.ok.injEq, Prod.mk.injEq] at h
    intro p
    rw [← h.1]
    exact hout p
  | cons d rest ih =>
    unfold mode2Dirs at h
    by_cases hskip : mode2DirSkip base (dirAbs root d.relDir) = true
    · rw [if_pos hskip] at h
      exact ih h hout
    · rw [if_neg hskip] at h
      cases hfd : mode2Files sha root base store info d.relDir d.files outs seen with
      | error e => rw [hfd] at h; cases h
      | ok os =>
        obtain ⟨outs1, seen1⟩ := os
        rw [hfd] at h
        exact ih h (mode2Files_no_removed hfd hout)

/-! ## C2: the Removed pass -/

/-- C2: when a diff run succeeds, its output is the walk-phase records
followed by the removed pass; every index key not observed by the walk is
emitted as `REMOVED` exactly once, no observed key is ever emitted as
`REMOVED`, every removed record comes from an unobserved index key, and
the walk phase itself never emits a `REMOVED` record.  (The path-shape
hypotheses say that the storage root is a non-empty path without a
trailing slash and the index keys are non-empty relative paths, which is
how the loader builds them.) -/
theorem c2_removed_exactly_once (sha : String → String) (root base : String)
    (store : Store) (walk : List LiveDir) (info : Dict)
    (outs : List DiffOut) (seen : List String)
    (hload : loadBaseline base store = .ok info)
    (hdirs : mode2Dirs sha root base store info walk [] [] = .ok (outs, seen))
    (hb1 : base ≠ "") (hb2 : pyEndsWith base "/" = false)
    (hkeys : ∀ k ∈ dictKeys info, pyStartsWith k "/" = false) :
    mode2Run sha root base store walk = .ok (outs ++ removedPass base info seen, seen) ∧
    (∀ k ∈ dictKeys info, seen.contains k = false →
      (removedPass base info seen).count (DiffOut.removed (pyJoin base k)) = 1) ∧
    (∀ k, seen.contains k = true → pyStartsWith k "/" = false →
      DiffOut.removed (pyJoin base k) ∉ removedPass base info seen) ∧
    (∀ o ∈ removedPass base info seen, ∃ k, k ∈ dictKeys info ∧
      seen.contains k = false ∧ o = DiffOut.removed (pyJoin base k)) ∧
    (∀ p, DiffOut.removed p ∉ outs) := by
  refine ⟨?_, ?_, ?_, ?_, ?_⟩
  · unfold mode2Run
    simp only [hload, hdirs]
  · intro k hk hns
    exact removedPass_count_eq_one (loadBaseline_nodup hload) hb1 hb2 hkeys hk hns
  · intro k hs hshape
    exact removedPass_not_mem_of_seen hb1 hb2 hkeys hshape hs
  · exact removedPass_mem
  · exact mode2Dirs_no_removed hdirs (by simp)

/-- Witness for C2: a baseline with files `gone` and `kept`, a live walk
that only observes `kept`. -/
theorem c2_removed_exactly_once_witness :
    mode2Run (fun _ => "h") "/r" "/b" [⟨"", "gone", "x"⟩, ⟨"", "kept", "y"⟩]
      [⟨"", [⟨"kept", true, .ok "y"⟩]⟩] =
      .ok ([DiffOut.unchanged "/r/kept", DiffOut.removed "/b/gone"], ["kept"]) ∧
    (removedPass "/b" [("gone", ⟨false, none, some 1⟩), ("kept", ⟨false, none, some 1⟩)]
      ["kept"]).count (DiffOut.removed (pyJoin "/b" "gone")) = 1 := by
  have h := c2_removed_exactly_once (fun _ => "h") "/r" "/b"
    [⟨"", "gone", "x"⟩, ⟨"", "kept", "y"⟩] [⟨"", [⟨"kept", true, .ok "y"⟩]⟩]
    [("gone", ⟨false, none, some 1⟩), ("kept", ⟨false, none, some 1⟩)]
    [DiffOut.unchanged "/r/kept"] ["kept"] (by decide) (by decide) (by decide) (by decide)
    (by decide)
  refine ⟨?_, h.2.1 "gone" (by decide) (by decide)⟩
  have h1 := h.1
  rw [h1]
  rfl

/-! ## Sidecar-name and join-associativity lemmas -/

theorem hashName_decomp {n : String} (hsuf : pyEndsWith n ".hash" = true)
    (hlen : 5 < n.length) :
    pyDropRight n 5 ++ ".hash" = n ∧ pyDropRight n 5 ≠ "" ∧
    (pyStartsWith n "/" = false → pyStartsWith (pyDropRight n 5) "/" = false) := by
  obtain ⟨pre, hpre⟩ := (pyEndsWith_iff n ".hash").mp hsuf
  have hlen5 : (".hash" : String).data.length = 5 := rfl
  have hlenn : n.data.length = pre.length + 5 := by
    rw [← hpre, List.length_append, hlen5]
  have htake : n.data.take (n.data.length - 5) = pre := by
    rw [hlenn, Nat.add_sub_cancel, ← hpre]
    exact List.take_left pre _
  have hdrop : pyDropRight n 5 = ⟨pre⟩ := by
    unfold pyDropRight
    rw [htake]
  have hprene : pre ≠ [] := by
    intro hc
    rw [hc] at hlenn
    simp at hlenn
    have : n.length = 5 := by
      show n.data.length = 5
      omega
    omega
  refine ⟨?_, ?_, ?_⟩
  · rw [hdrop]
    apply string_ext
    show pre ++ (".hash" : String).data = n.data
    exact hpre
  · rw [hdrop]
    intro hc
    exact hprene (string_eq_empty_iff.mp hc)
  · intro hn
    rw [hdrop]
    rw [startsWith_slash_false_iff] at hn ⊢
    show ¬ pre.head? = some '/'
    have : n.data.head? = pre.head? := by
      rw [← hpre]
      exact List.head?_append_of_ne_nil pre hprene
    rw [this] at hn
    exact hn

theorem dirAbs_shape {base d : String} (hb1 : base ≠ "") (hb2 : pyEndsWith base "/" = false)
    (hd1 : pyStartsWith d "/" = false) (hd2 : pyEndsWith d "/" = false) :
    dirAbs base d ≠ "" ∧ pyEndsWith (dirAbs base d) "/" = false := by
  by_cases hde : d = ""
  · subst hde
    simp [dirAbs, hb1, hb2]
  · rw [dirAbs, if_neg hde, pyJoin_std hb1 hb2 hd1]
    have hdne : d.data ≠ [] := fun hc => hde (string_eq_empty_iff.mpr hc)
    constructor
    · exact string_append_ne_empty_right hde
    · rw [endsWith_slash_false_iff] at hd2 ⊢
      have : (base ++ "/" ++ d).data.getLast? = d.data.getLast? := by
        show ((base ++ "/").data ++ d.data).getLast? = d.data.getLast?
        exact List.getLast?_append_of_ne_nil _ hdne
      rw [this]
      exact hd2

theorem pyJoin_dirAbs {base relDir nm : String}
    (hb1 : base ≠ "") (hb2 : pyEndsWith base "/" = false)
    (hd1 : pyStartsWith relDir "/" = false) (hd2 : pyEndsWith relDir "/" = false)
    (hn1 : pyStartsWith nm "/" = false) :
    pyJoin (dirAbs base relDir) nm = pyJoin base (pyJoin relDir nm) := by
  by_cases hde : relDir = ""
  · subst hde
    rw [dirAbs, if_pos rfl, pyJoin_empty_left hn1]
  · rw [dirAbs, if_neg hde]
    have hdne : relDir.data ≠ [] := fun hc => hde (string_eq_empty_iff.mpr hc)
    rw [pyJoin_std hb1 hb2 hd1]
    have h1 : base ++ "/" ++ relDir ≠ "" := string_append_ne_empty_right hde
    have h2 : pyEndsWith (base ++ "/" ++ relDir) "/" = false := by
      rw [endsWith_slash_false_iff]
      have : (base ++ "/" ++ relDir).data.getLast? = relDir.data.getLast? := by
        show ((base ++ "/").data ++ relDir.data).getLast? = relDir.data.getLast?
        exact List.getLast?_append_of_ne_nil _ hdne
      rw [this]
      exact (endsWith_slash_false_iff relDir).mp hd2
    rw [pyJoin_std h1 h2 hn1, pyJoin_std hde hd2 hn1]
    have h3 : pyStartsWith (relDir ++ "/" ++ nm) "/" = false := by
      rw [startsWith_slash_false_iff]
      have : (relDir ++ "/" ++ nm).data.head? = relDir.data.head? := by
        show ((relDir.data ++ "/".data) ++ nm.data).head? = relDir.data.head?
        rw [List.head?_append_of_ne_nil _ (by simp [hdne]),
          List.head?_append_of_ne_nil _ hdne]
      rw [this]
      exact (startsWith_slash_false_iff relDir).mp hd1
    rw [pyJoin_std hb1 hb2 h3]
    apply string_ext
    show ((((base.data ++ "/".data) ++ relDir.data) ++ "/".data) ++ nm.data) =
      (base.data ++ "/".data) ++ ((relDir.data ++ "/".data) ++ nm.data)
    simp [List.append_assoc]

theorem pyJoin_append {a pre suf : String} (ha1 : a ≠ "") (ha2 : pyEndsWith a "/" = false)
    (hp : pyStartsWith pre "/" = false) (hpne : pre ≠ "") :
    pyJoin a pre ++ suf = pyJoin a (pre ++ suf) := by
  have hpe : pre.data ≠ [] := fun hc => hpne (string_eq_empty_iff.mpr hc)
  have hps : pyStartsWith (pre ++ suf) "/" = false := by
    rw [startsWith_slash_false_iff] at hp ⊢
    show ¬ (pre.data ++ suf.data).head? = some '/'
    rw [List.head?_append_of_ne_nil _ hpe]
    exact hp
  rw [pyJoin_std ha1 ha2 hp, pyJoin_std ha1 ha2 hps, String.append_assoc]

theorem dictFind_of_mem_keys {info : Dict} {k : String} (h : k ∈ dictKeys info) :
    ∃ r, dictFind info k = some r := by
  induction info with
  | nil => simp [dictKeys] at h
  | cons kv rest ih =>
    by_cases hk : kv.1 = k
    · exact ⟨kv.2, by simp [dictFind, hk]⟩
    · have : k ∈ dictKeys rest := by
        simp [dictKeys] at h ⊢
        rcases h with h | h
        · exact absurd h.symm (by simpa using hk)
        · exact h
      obtain ⟨r, hr⟩ := ih this
      exact ⟨r, by simp [dictFind, hk, hr]⟩

theorem loadBaseline_key_shape {base : String} {store : Store} {info : Dict}
    (hload : loadBaseline base store = .ok info)
    (hshape : ∀ e ∈ store, e.name ≠ "" ∧ pyStartsWith e.name "/" = false ∧
      pyStartsWith e.relDir "/" = false ∧ pyEndsWith e.relDir "/" = false ∧
      (pyEndsWith e.name ".hash" = true → 5 < e.name.length)) :
    ∀ k r, dictFind info k = some r → k ≠ "" ∧ pyStartsWith k "/" = false := by
  intro k r hk
  rcases loadAux_find_provenance hload k r hk with hbase0 | ⟨e, he, hlen, hcase⟩
  · simp [dictFind] at hbase0
  · obtain ⟨hn1, hn2, hd1, hd2, hlen5⟩ := hshape e he
    rcases hcase with ⟨hsuf, hk1, -⟩ | ⟨hsuf, hk1, -⟩
    · obtain ⟨heqn, hpne, hps⟩ := hashName_decomp hsuf (hlen5 hsuf)
      subst hk1
      exact pyJoin_shape hd1 (hps hn2) hpne
    · subst hk1
      exact pyJoin_shape hd1 hn2 hn1

/-! ## C10: what the Removed records name -/

/-- C10: every `REMOVED` record printed by a successful diff names the
path inside the snapshot storage root — the storage directory joined with
the record's relative path — and, whenever the live root is a different
(well-formed) directory, not the corresponding path under the live root;
for a record loaded from a `.hash` sidecar the printed path is the
sidecar's absolute path with its `.hash` suffix stripped (the code prints
it without any existence check against the store). -/
theorem c10_removed_paths (sha : String → String) (root base : String)
    (store : Store) (walk : List LiveDir) (info : Dict) (wouts outs : List DiffOut)
    (seen : List String)
    (hload : loadBaseline base store = .ok info)
    (hdirs : mode2Dirs sha root base store info walk [] [] = .ok (wouts, seen))
    (hrun : mode2Run sha root base store walk = .ok (outs, seen))
    (hb1 : base ≠ "") (hb2 : pyEndsWith base "/" = false)
    (hshape : ∀ e ∈ store, e.name ≠ "" ∧ pyStartsWith e.name "/" = false ∧
      pyStartsWith e.relDir "/" = false ∧ pyEndsWith e.relDir "/" = false ∧
      (pyEndsWith e.name ".hash" = true → 5 < e.name.length)) :
    ∀ p, DiffOut.removed p ∈ outs →
      ∃ k r, dictFind info k = some r ∧ seen.contains k = false ∧
        p = pyJoin base k ∧
        (∀ liveRoot : String, liveRoot ≠ "" → pyEndsWith liveRoot "/" = false →
          liveRoot ≠ base → p ≠ pyJoin liveRoot k) ∧
        (r.is_large = true → ∃ e, e ∈ store ∧ pyEndsWith e.name ".hash" = true ∧
          p ++ ".hash" = entryAbs base e) := by
  intro p hp
  have houts : outs = wouts ++ removedPass base info seen := by
    unfold mode2Run at hrun
    simp only [hload, hdirs] at hrun
    simp only [Except.ok.injEq, Prod.mk.injEq] at hrun
    exact hrun.1.symm
  rw [houts] at hp
  rcases List.mem_append.mp hp with hp | hp
  · exact absurd hp (mode2Dirs_no_removed hdirs (by simp) p)
  · obtain ⟨k, hkmem, hseen, heq⟩ := removedPass_mem _ hp
    obtain ⟨r, hr⟩ := dictFind_of_mem_keys hkmem
    obtain ⟨hkne, hkns⟩ := loadBaseline_key_shape hload hshape k r hr
    have hpeq : p = pyJoin base k := by simpa using heq
    refine ⟨k, r, hr, hseen, hpeq, ?_, ?_⟩
    · intro liveRoot hl1 hl2 hlne
      rw [hpeq]
      exact fun hc =>
        (pyJoin_ne_of_base_ne hb1 hb2 hl1 hl2 hkns (fun hbb => hlne hbb.symm)) hc
    · intro hlarge
      rcases loadAux_find_provenance hload k r hr with hbase0 | ⟨e, he, hlen, hcase⟩
      · simp [dictFind] at hbase0
      · obtain ⟨hn1, hn2, hd1, hd2, hlen5⟩ := hshape e he
        rcases hcase with ⟨hsuf, hk1, -⟩ | ⟨hsuf, hk1, hsmall⟩
        · obtain ⟨heqn, hpne, hps⟩ := hashName_decomp hsuf (hlen5 hsuf)
          refine ⟨e, he, hsuf, ?_⟩
          obtain ⟨hda1, hda2⟩ := dirAbs_shape hb1 hb2 hd1 hd2
          rw [hpeq, hk1, ← pyJoin_dirAbs hb1 hb2 hd1 hd2 (hps hn2),
            pyJoin_append hda1 hda2 (hps hn2) hpne, heqn]
          rfl
        · exact absurd hlarge (by simp [hsmall])

/-- Witness for C10: a baseline holding one sidecar `d/big.hash`, an
empty live walk; the removed record names `/b/d/big`, the sidecar path
without its suffix. -/
theorem c10_removed_paths_witness :
    ∃ k r, dictFind [("d/big", (⟨true, some "x", some 9⟩ : FileRecord))] k = some r ∧
      (List.contains ([] : List String) k) = false ∧ "/b/d/big" = pyJoin "/b" k ∧
      (∀ liveRoot : String, liveRoot ≠ "" → pyEndsWith liveRoot "/" = false →
        liveRoot ≠ "/b" → "/b/d/big" ≠ pyJoin liveRoot k) ∧
      (r.is_large = true → ∃ e, e ∈ [(⟨"d", "big.hash", "HASH: x\nSIZE: 9\n"⟩ : StoreEntry)] ∧
        pyEndsWith e.name ".hash" = true ∧ "/b/d/big" ++ ".hash" = entryAbs "/b" e) := by
  exact c10_removed_paths (fun _ => "h") "/r" "/b" [⟨"d", "big.hash", "HASH: x\nSIZE: 9\n"⟩] []
    [("d/big", ⟨true, some "x", some 9⟩)] [] [DiffOut.removed "/b/d/big"] []
    (by decide) (by decide) (by decide) (by decide) (by decide) (by decide)
    "/b/d/big" (by decide)

/-! ## C3: malformed sidecars -/

theorem parseSidecarLines_no_hash (lines : List (List Char)) (s0 : Option Int)
    (hnohash : ∀ l ∈ lines, ("HASH: ".data).isPrefixOf (pyStripL l) = false)
    (hsize : ∀ l ∈ lines, ("SIZE: ".data).isPrefixOf (pyStripL l) = true →
      ∃ v, pyIntL ((pyStripL l).drop 6) = some v) :
    ∃ s, parseSidecarLines lines none s0 = .ok (none, s) := by
  induction lines generalizing s0 with
  | nil => exact ⟨s0, rfl⟩
  | cons l rest ih =>
    have hh := hnohash l (by simp)
    unfold parseSidecarLines
    rw [if_neg (by simp [hh])]
    by_cases hs : ("SIZE: ".data).isPrefixOf (pyStripL l) = true
    · obtain ⟨v, hv⟩ := hsize l (by simp) hs
      rw [if_pos hs, hv]
      exact ih (some v) (fun x hx => hnohash x (by simp [hx]))
        (fun x hx => hsize x (by simp [hx]))
    · rw [if_neg hs]
      exact ih s0 (fun x hx => hnohash x (by simp [hx]))
        (fun x hx => hsize x (by simp [hx]))

/-- C3 counterexample: a sidecar whose `SIZE:` line has a non-integer
payload makes `int(...)` raise `ValueError`, which the loader's
`except OSError` does not catch: the load — and with it the whole diff —
aborts.  The claim's "never aborts the load" is false for unparseable
`SIZE:` fields. -/
theorem c3_counterexample :
    loadBaseline "/b" [⟨"", "x.hash", "SIZE: xyz\n"⟩] = .error .valueError ∧
    mode2Run (fun _ => "h") "/r" "/b" [⟨"", "x.hash", "SIZE: xyz\n"⟩] [] =
      .error .valueError := by
  constructor <;> rfl

/-- C3 amended: a sidecar with a missing (or never-matching) `HASH:`
line — and whose `SIZE:` lines, if any, carry integer payloads — loads
without aborting into a record with an absent digest, and the Diff Engine
then reports `MODIFIED` for that path whatever the live content is,
including when it is byte-identical to the original; but a sidecar with a
non-integer `SIZE:` payload raises `ValueError` and aborts the load
(see the counterexample). -/
theorem c3_malformed_sidecar (sha : String → String) (root base : String)
    (info : Dict) (e : StoreEntry) (relDir : String) (f : LiveFile) (c : String)
    (hlen : (entryAbs base e).length ≤ 255) (hsuf : pyEndsWith e.name ".hash" = true)
    (hnohash : ∀ l ∈ splitLinesL e.content.data,
      ("HASH: ".data).isPrefixOf (pyStripL l) = false)
    (hsize : ∀ l ∈ splitLinesL e.content.data,
      ("SIZE: ".data).isPrefixOf (pyStripL l) = true →
        ∃ v, pyIntL ((pyStripL l).drop 6) = some v) :
    (∃ s, loadEntry base info e =
      .ok (dictInsert info (pyJoin e.relDir (pyDropRight e.name 5)) ⟨true, none, s⟩)) ∧
    (∀ (store : Store) (info' : Dict) (r : FileRecord),
      dictFind info' (pyJoin relDir f.name) = some r → r.hash = none →
      r.is_large = true →
      (pyJoin (dirAbs root relDir) f.name).length ≤ 255 → f.isFile = true →
      f.read = .ok c →
      mode2File sha root base store info' relDir f =
        .ok (some (.modified (pyJoin (dirAbs root relDir) f.name)),
          some (pyJoin relDir f.name))) := by
  constructor
  · obtain ⟨s, hs⟩ := parseSidecarLines_no_hash (splitLinesL e.content.data) none hnohash hsize
    refine ⟨s, ?_⟩
    have hlen2 : (pyJoin (dirAbs base e.relDir) e.name).length ≤ 255 := hlen
    unfold loadEntry
    rw [if_neg (by omega), if_pos (by simp [hsuf])]
    have hps : parseSidecar e.content = .ok (none, s) := hs
    rw [hps]
  · intro store info' r hfind hhash hlarge hlen' hreg hread
    have hc : ¬ (pyJoin (dirAbs root relDir) f.name).length > 255 := by omega
    simp [mode2File, hc, hreg, hfind, hlarge, hread, hhash, hashMatches]

/-- Witness for C3 amended: sidecar `big.hash` whose content is only a
`SIZE:` line; the live file reads back identical content and is still
reported `MODIFIED`. -/
theorem c3_malformed_sidecar_witness :
    (∃ s, loadEntry "/b" [] ⟨"", "big.hash", "SIZE: 9\n"⟩ =
      .ok (dictInsert [] (pyJoin "" (pyDropRight "big.hash" 5)) ⟨true, none, s⟩)) ∧
    mode2File (fun _ => "h") "/r" "/b" [] [("big", ⟨true, none, some 9⟩)] ""
      ⟨"big", true, .ok "same"⟩ =
      .ok (some (.modified (pyJoin (dirAbs "/r" "") "big")), some (pyJoin "" "big")) := by
  have h := c3_malformed_sidecar (fun _ => "h") "/r" "/b" [] ⟨"", "big.hash", "SIZE: 9\n"⟩
    "" ⟨"big", true, .ok "same"⟩ "same" (by decide) (by decide)
    (by decide)
    (by intro l hl hpre
        have hl2 : l ∈ splitLinesL ("SIZE: 9\n" : String).data := hl
        have hsp : splitLinesL ("SIZE: 9\n" : String).data = ["SIZE: 9".data, []] := by
          decide
        rw [hsp] at hl2
        have hl3 : l = "SIZE: 9".data ∨ l = [] := by simpa using hl2
        rcases hl3 with rfl | rfl
        · exact ⟨9, by decide⟩
        · exact absurd hpre (by decide))
  exact ⟨h.1, h.2 [] [("big", ⟨true, none, some 9⟩)] ⟨true, none, some 9⟩
    (by decide) rfl rfl (by decide) rfl rfl⟩

/-! ## C6: error propagation -/

theorem mode1ProcessFile_error {sha : String → String} {st : Store} {relDir : String}
    {f : SrcFile} {e : Nat} (hf : f.read = .error e) :
    mode1ProcessFile sha st relDir f = st := by
  unfold mode1ProcessFile
  split
  · rfl
  · simp only [hf]

/-- C6 counterexample: during Diff, one file whose digest read fails with
`EACCES` (errno 13) aborts the whole run — the exception propagates out
of the per-file loop, the following file `g` is never classified and no
best-effort result is produced.  This contradicts "a per-file processing
error ... never propagates past the file being processed" for the Diff
side. -/
theorem c6_counterexample :
    mode2Run (fun _ => "h") "/r" "/b" [⟨"", "f.hash", "HASH: abc\nSIZE: 2000000\n"⟩]
      [⟨"", [⟨"f", true, .error 13⟩, ⟨"g", true, .ok "hi"⟩]⟩] = .error (.osError 13) := by
  rfl

/-- C6 amended: during Build, any per-file error is absorbed and the walk
continues over the remaining files exactly as if the failing file were
absent.  During Diff, only the `File name too long` error (errno 36) is
absorbed per-file (the file is skipped but still marked as seen); any
other `OSError` raised while digesting a file propagates and aborts the
whole walk, whatever files remain. -/
theorem c6_error_propagation (sha : String → String) (root base : String)
    (store : Store) (info : Dict) (relDir : String) :
    (∀ (st : Store) (pre post : List SrcFile) (f : SrcFile) (e : Nat),
      f.read = .error e →
      mode1Files sha relDir st (pre ++ f :: post) = mode1Files sha relDir st (pre ++ post)) ∧
    (∀ (f : LiveFile) (e : Nat) (r : FileRecord) (rest : List LiveFile)
        (outs : List DiffOut) (seen : List String),
      f.read = .error e → e ≠ 36 →
      dictFind info (pyJoin relDir f.name) = some r → r.is_large = true →
      (pyJoin (dirAbs root relDir) f.name).length ≤ 255 → f.isFile = true →
      mode2Files sha root base store info relDir (f :: rest) outs seen = .error e) ∧
    (∀ (f : LiveFile) (r : FileRecord) (rest : List LiveFile)
        (outs : List DiffOut) (seen : List String),
      f.read = .error 36 →
      dictFind info (pyJoin relDir f.name) = some r → r.is_large = true →
      (pyJoin (dirAbs root relDir) f.name).length ≤ 255 → f.isFile = true →
      mode2Files sha root base store info relDir (f :: rest) outs seen =
        mode2Files sha root base store info relDir rest outs
          (seen ++ [pyJoin relDir f.name])) := by
  refine ⟨?_, ?_, ?_⟩
  · intro st pre post f e hf
    induction pre generalizing st with
    | nil =>
      show mode1Files sha relDir (mode1ProcessFile sha st relDir f) post =
        mode1Files sha relDir st post
      rw [mode1ProcessFile_error hf]
    | cons g rest ih =>
      show mode1Files sha relDir (mode1ProcessFile sha st relDir g) (rest ++ f :: post) = _
      exact ih _
  · intro f e r rest outs seen hf he hfind hlarge hlen hreg
    have hc : ¬ (pyJoin (dirAbs root relDir) f.name).length > 255 := by omega
    have hm : mode2File sha root base store info relDir f = .error e := by
      unfold mode2File
      rw [if_neg (by simpa using hc), if_neg (by simp [hreg])]
      simp only [hfind]
      rw [if_pos hlarge]
      simp only [hf]
      rw [if_neg he]
    unfold mode2Files
    rw [hm]
  · intro f r rest outs seen hf hfind hlarge hlen hreg
    have hc : ¬ (pyJoin (dirAbs root relDir) f.name).length > 255 := by omega
    have hm : mode2File sha root base store info relDir f =
        .ok (none, some (pyJoin relDir f.name)) := by
      unfold mode2File
      rw [if_neg (by simpa using hc), if_neg (by simp [hreg])]
      simp only [hfind]
      rw [if_pos hlarge]
      simp only [hf]
      simp
    show (match mode2File sha root base store info relDir f with
        | .error e => Except.error e
        | .ok (o, s) => mode2Files sha root base store info relDir rest (outs ++ o.toList)
            (seen ++ s.toList)) =
      mode2Files sha root base store info relDir rest outs (seen ++ [pyJoin relDir f.name])
    rw [hm]
    simp

/-- Witness for C6 amended, at concrete inputs for all three conjuncts. -/
theorem c6_error_propagation_witness :
    mode1Files (fun _ => "h") "" [] [⟨"ok1", true, .ok "a"⟩, ⟨"bad", true, .error 13⟩,
        ⟨"ok2", true, .ok "b"⟩] =
      mode1Files (fun _ => "h") "" [] [⟨"ok1", true, .ok "a"⟩, ⟨"ok2", true, .ok "b"⟩] ∧
    mode2Files (fun _ => "h") "/r" "/b" [] [("f", ⟨true, some "x", none⟩)] ""
        [⟨"f", true, .error 13⟩, ⟨"g", true, .ok "y"⟩] [] [] = .error 13 ∧
    mode2Files (fun _ => "h") "/r" "/b" [] [("f", ⟨true, some "x", none⟩)] ""
        [⟨"f", true, .error 36⟩] [] [] =
      mode2Files (fun _ => "h") "/r" "/b" [] [("f", ⟨true, some "x", none⟩)] "" [] []
        ([] ++ [pyJoin "" "f"]) := by
  have h := c6_error_propagation (fun _ => "h") "/r" "/b" [] [("f", ⟨true, some "x", none⟩)] ""
  refine ⟨?_, ?_, ?_⟩
  · exact (c6_error_propagation (fun _ => "h") "/r" "/b" [] [] "").1 []
      [⟨"ok1", true, .ok "a"⟩] [⟨"ok2", true, .ok "b"⟩] ⟨"bad", true, .error 13⟩ 13 rfl
  · exact h.2.1 ⟨"f", true, .error 13⟩ 13 ⟨true, some "x", none⟩ [⟨"g", true, .ok "y"⟩] [] []
      rfl (by decide) (by decide) rfl (by decide) rfl
  · exact h.2.2 ⟨"f", true, .error 36⟩ ⟨true, some "x", none⟩ [] [] []
      rfl (by decide) rfl (by decide) rfl

/-! ## C5: the path-length ceiling -/

/-- A 297-character file name; under root `/r` its absolute path
`/r/<name>` is 300 characters long. -/
def longName297 : String := ⟨List.replicate 297 'a'⟩

set_option maxRecDepth 100000 in
/-- C5 counterexample: a file whose absolute path is 300 characters long
is *not* excluded from the Build walk — `mode1` has no path-length check,
so the file is copied into the snapshot.  The claim's "never copied or
digested into the snapshot" is false. -/
theorem c5_counterexample :
    (pyJoin (dirAbs "/r" "") longName297).length = 300 ∧
    storeFindPair
      (mode1Build (fun _ => "h") "/r" "/b" [⟨"", [⟨longName297, true, .ok "ab"⟩]⟩] [])
      "" longName297 = some "ab" := by
  constructor
  · decide
  · decide

/-- C5 amended: a path whose absolute length exceeds 255 characters is
excluded from the Diff walk (both at directory and at file level) and
skipped by the Snapshot Loader, so it never appears in any diff output;
but the Build walk has no path-length ceiling at all: such a file is
still copied (or digested) into the snapshot, where the loader then
ignores it. -/
theorem c5_long_paths (sha : String → String) (root base : String) (store : Store)
    (info : Dict) :
    (∀ (st : Store) (relDir : String) (f : SrcFile) (c : String),
      f.isFile = true → f.read = .ok c → c.length ≤ SIZE_THRESHOLD →
      storeFindPair (mode1ProcessFile sha st relDir f) relDir f.name = some c) ∧
    (∀ (pre post : List StoreEntry) (e : StoreEntry) (acc : Dict),
      (entryAbs base e).length > 255 →
      loadAux base acc (pre ++ e :: post) = loadAux base acc (pre ++ post)) ∧
    (∀ (relDir : String) (pre post : List LiveFile) (f : LiveFile)
        (outs : List DiffOut) (seen : List String),
      (pyJoin (dirAbs root relDir) f.name).length > 255 →
      mode2Files sha root base store info relDir (pre ++ f :: post) outs seen =
        mode2Files sha root base store info relDir (pre ++ post) outs seen) ∧
    (∀ (d : LiveDir) (rest : List LiveDir) (outs : List DiffOut) (seen : List String),
      (dirAbs root d.relDir).length > 255 →
      mode2Dirs sha root base store info (d :: rest) outs seen =
        mode2Dirs sha root base store info rest outs seen) := by
  refine ⟨?_, ?_, ?_, ?_⟩
  · intro st relDir f c hreg hread hsmall
    unfold mode1ProcessFile
    rw [hreg]
    simp only [hread, Bool.not_true, Bool.false_eq_true, if_false]
    rw [if_neg (Nat.not_lt.mpr hsmall)]
    rw [storeFindPair_storeInsert, if_pos ⟨rfl, rfl⟩]
  · intro pre post e acc hlen
    induction pre generalizing acc with
    | nil =>
      have hstep : loadEntry base acc e = .ok acc := by
        have hlen2 : (pyJoin (dirAbs base e.relDir) e.name).length > 255 := hlen
        unfold loadEntry
        rw [if_pos hlen2]
      show (match loadEntry base acc e with
          | Except.error err => Except.error err
          | Except.ok info' => loadAux base info' post) = loadAux base acc post
      rw [hstep]
    | cons g rest ih =>
      show (match loadEntry base acc g with
          | Except.error err => Except.error err
          | Except.ok info' => loadAux base info' (rest ++ e :: post)) =
        (match loadEntry base acc g with
          | Except.error err => Except.error err
          | Except.ok info' => loadAux base info' (rest ++ post))
      cases hg : loadEntry base acc g with
      | error err => rfl
      | ok acc1 => exact ih acc1
  · intro relDir pre post f outs seen hlen
    have hstep : mode2File sha root base store info relDir f = .ok (none, none) := by
      unfold mode2File
      rw [if_pos hlen]
    induction pre generalizing outs seen with
    | nil =>
      show (match mode2File sha root base store info relDir f with
          | .error e => Except.error e
          | .ok (o, s) => mode2Files sha root base store info relDir post (outs ++ o.toList)
              (seen ++ s.toList)) = mode2Files sha root base store info relDir post outs seen
      rw [hstep]
      simp
    | cons g rest ih =>
      show (match mode2File sha root base store info relDir g with
          | .error e => Except.error e
          | .ok (o, s) => mode2Files sha root base store info relDir (rest ++ f :: post)
              (outs ++ o.toList) (seen ++ s.toList)) =
        (match mode2File sha root base store info relDir g with
          | .error e => Except.error e
          | .ok (o, s) => mode2Files sha root base store info relDir (rest ++ post)
              (outs ++ o.toList) (seen ++ s.toList))
      cases hg : mode2File sha root base store info relDir g with
      | error e => rfl
      | ok os =>
        obtain ⟨o, s⟩ := os
        exact ih _ _
  · intro d rest outs seen hlen
    show (if mode2DirSkip base (dirAbs root d.relDir) = true then
        mode2Dirs sha root base store info rest outs seen
      else
        match mode2Files sha root base store info d.relDir d.files outs seen with
        | Except.error e => Except.error e
        | Except.ok (outs', seen') => mode2Dirs sha root base store info rest outs' seen') =
      mode2Dirs sha root base store info rest outs seen
    rw [if_pos (by simp only [mode2DirSkip, Bool.or_eq_true, decide_eq_true_eq]; omega)]

set_option maxRecDepth 100000 in
/-- Witness for C5 amended at the 300-character path of the
counterexample scenario. -/
theorem c5_long_paths_witness :
    storeFindPair (mode1ProcessFile (fun _ => "h") [] "" ⟨longName297, true, .ok "ab"⟩)
      "" longName297 = some "ab" ∧
    loadAux "/b" [] ([] ++ ⟨"", longName297 ++ ".hash", "HASH: x\nSIZE: 9\n"⟩ :: []) =
      loadAux "/b" [] ([] ++ []) ∧
    mode2Files (fun _ => "h") "/r" "/b" [] [] "" ([] ++ ⟨longName297, true, .ok "ab"⟩ :: []) [] [] =
      mode2Files (fun _ => "h") "/r" "/b" [] [] "" ([] ++ []) [] [] := by
  have h := c5_long_paths (fun _ => "h") "/r" "/b" [] []
  refine ⟨?_, ?_, ?_⟩
  · exact h.1 [] "" ⟨longName297, true, .ok "ab"⟩ "ab" rfl rfl (by decide)
  · exact h.2.1 [] [] ⟨"", longName297 ++ ".hash", "HASH: x\nSIZE: 9\n"⟩ [] (by decide)
  · exact h.2.2.1 "" [] [] ⟨longName297, true, .ok "ab"⟩ [] [] (by decide)

/-! ## C7/C8: the Build -> Load round trip

Auxiliary specifications of what the build writes and what the loader
reads back, used to relate `mode1Build` and `loadBaseline`. -/

/-- The (directory, name) key under which a store entry lives. -/
def entKey (e : StoreEntry) : String × String := (e.relDir, e.name)

/-- What the build's per-file step writes, if anything. -/
def buildEntry (sha : String → String) (relDir : String) (f : SrcFile) :
    Option StoreEntry :=
  if !f.isFile then none
  else
    match f.read with
    | .error _ => none
    | .ok c =>
      if c.length > SIZE_THRESHOLD then
        some ⟨relDir, f.name ++ ".hash", sidecarText (sha c) c.length⟩
      else some ⟨relDir, f.name, c⟩

/-- All entries the build writes, in walk order. -/
def buildList (sha : String → String) (root base : String) (walk : List SrcDir) :
    List StoreEntry :=
  (walk.filter (fun d => !mode1DirSkip base (dirAbs root d.relDir))).flatMap
    (fun d => d.files.filterMap (buildEntry sha d.relDir))

/-- The index key under which the loader files a store entry. -/
def loadTargetKey (e : StoreEntry) : String :=
  if pyEndsWith e.name ".hash" then pyJoin e.relDir (pyDropRight e.name 5)
  else pyJoin e.relDir e.name

/-- The record the loader builds for a store entry (when its parse
succeeds). -/
def loadRecord (e : StoreEntry) : FileRecord :=
  if pyEndsWith e.name ".hash" then
    match parseSidecar e.content with
    | .ok (h, s) => ⟨true, h, s⟩
    | .error _ => ⟨true, none, none⟩
  else ⟨false, none, some (e.content.length : Int)⟩

theorem mode1ProcessFile_eq_buildEntry (sha : String → String) (st : Store)
    (relDir : String) (f : SrcFile) :
    mode1ProcessFile sha st relDir f =
      match buildEntry sha relDir f with
      | none => st
      | some e => storeInsert st e.relDir e.name e.content := by
  unfold mode1ProcessFile buildEntry
  by_cases hreg : (!f.isFile) = true
  · rw [if_pos hreg, if_pos hreg]
  · rw [if_neg hreg, if_neg hreg]
    cases f.read with
    | error e => rfl
    | ok c =>
      by_cases hbig : c.length > SIZE_THRESHOLD <;> simp [hbig]

theorem storeInsert_fresh {st : Store} {d n : String} (c : String)
    (h : ∀ e ∈ st, ¬ (e.relDir = d ∧ e.name = n)) :
    storeInsert st d n c = st ++ [⟨d, n, c⟩] := by
  induction st with
  | nil => rfl
  | cons e rest ih =>
    rw [storeInsert, if_neg (h e (by simp)), ih (fun e' he' => h e' (by simp [he']))]
    rfl

theorem mode1Files_eq_append (sha : String → String) (relDir : String) :
    ∀ (files : List SrcFile) (st : Store),
    ((st ++ files.filterMap (buildEntry sha relDir)).map entKey).Nodup →
    mode1Files sha relDir st files = st ++ files.filterMap (buildEntry sha relDir) := by
  intro files
  induction files with
  | nil => intro st _; simp [mode1Files]
  | cons f rest ih =>
    intro st hnd
    show mode1Files sha relDir (mode1ProcessFile sha st relDir f) rest = _
    rw [mode1ProcessFile_eq_buildEntry]
    cases hb : buildEntry sha relDir f with
    | none =>
      rw [List.filterMap_cons_none hb] at hnd ⊢
      exact ih st hnd
    | some e =>
      rw [List.filterMap_cons_some hb] at hnd ⊢
      show mode1Files sha relDir (storeInsert st e.relDir e.name e.content) rest =
        st ++ e :: rest.filterMap (buildEntry sha relDir)
      have hnotin : entKey e ∉ st.map entKey := by
        intro hmem
        have h1 : ((st.map entKey) ++
            (entKey e :: (rest.filterMap (buildEntry sha relDir)).map entKey)).Nodup := by
          simpa using hnd
        have h2 := (List.nodup_append.mp h1).2.2
        exact h2 hmem (List.mem_cons_self _ _)
      have hfresh : ∀ e' ∈ st, ¬ (e'.relDir = e.relDir ∧ e'.name = e.name) := by
        intro e' he' hc
        apply hnotin
        have hkk : entKey e' = entKey e := by simp [entKey, hc.1, hc.2]
        exact hkk ▸ List.mem_map_of_mem entKey he'
      rw [storeInsert_fresh e.content hfresh]
      have heta : st ++ [(⟨e.relDir, e.name, e.content⟩ : StoreEntry)] ++
          rest.filterMap (buildEntry sha relDir) =
          st ++ e :: rest.filterMap (buildEntry sha relDir) := by simp
      rw [← heta]
      exact ih _ (by simpa using hnd)

theorem mode1Build_eq_append (sha : String → String) (root base : String) :
    ∀ (walk : List SrcDir) (st : Store),
    ((st ++ buildList sha root base walk).map entKey).Nodup →
    mode1Build sha root base walk st = st ++ buildList sha root base walk := by
  intro walk
  induction walk with
  | nil => intro st _; simp [mode1Build, buildList]
  | cons d rest ih =>
    intro st hnd
    show mode1Build sha root base rest (mode1Dir sha root base st d) = _
    unfold mode1Dir
    by_cases hskip : mode1DirSkip base (dirAbs root d.relDir) = true
    · rw [if_pos hskip]
      have hb : buildList sha root base (d :: rest) = buildList sha root base rest := by
        unfold buildList
        rw [List.filter_cons, if_neg (by simp [hskip])]
      rw [hb] at hnd ⊢
      exact ih st hnd
    · rw [if_neg hskip]
      have hb : buildList sha root base (d :: rest) =
          d.files.filterMap (buildEntry sha d.relDir) ++ buildList sha root base rest := by
        unfold buildList
        rw [List.filter_cons, if_pos (by simp [hskip])]
        rfl
      rw [hb] at hnd ⊢
      rw [← List.append_assoc] at hnd ⊢
      rw [mode1Files_eq_append sha d.relDir d.files st (by
        have := hnd
        rw [List.map_append] at this
        exact (List.nodup_append.mp this).1)]
      exact ih _ hnd

/-! ## Parsing back what the builder wrote -/

theorem string_data_append (a b : String) : (a ++ b).data = a.data ++ b.data := rfl

theorem splitLinesL_append_newline {a : List Char} (rest : List Char)
    (hno : '\n' ∉ a) : splitLinesL (a ++ '\n' :: rest) = a :: splitLinesL rest := by
  induction a with
  | nil => simp [splitLinesL]
  | cons c t ih =>
    have hc : c ≠ '\n' := by intro hcc; exact hno (by simp [hcc])
    have ht : splitLinesL (t ++ '\n' :: rest) = t :: splitLinesL rest :=
      ih (fun hh => hno (by simp [hh]))
    show splitLinesL (c :: (t ++ '\n' :: rest)) = (c :: t) :: splitLinesL rest
    rw [show splitLinesL (c :: (t ++ '\n' :: rest)) =
        (if c = '\n' then [] :: splitLinesL (t ++ '\n' :: rest)
         else match splitLinesL (t ++ '\n' :: rest) with
           | [] => [[c]]
           | l :: ls => (c :: l) :: ls) from rfl]
    rw [if_neg hc, ht]

theorem pyStripL_eq_self {l : List Char}
    (hhead : ∀ ch, l.head? = some ch → isPySpace ch = false)
    (hlast : ∀ ch, l.getLast? = some ch → isPySpace ch = false) :
    pyStripL l = l := by
  unfold pyStripL
  have h1 : l.dropWhile isPySpace = l := by
    cases l with
    | nil => rfl
    | cons c t =>
      rw [List.dropWhile_cons_of_neg]
      simp [hhead c rfl]
  rw [h1]
  have h2 : l.reverse.dropWhile isPySpace = l.reverse := by
    cases hr : l.reverse with
    | nil => rfl
    | cons c t =>
      rw [List.dropWhile_cons_of_neg]
      have hcl : l.getLast? = some c := by
        rw [← List.head?_reverse, hr]; rfl
      simp [hlast c hcl]
  rw [h2, List.reverse_reverse]

theorem natRepr_no_newline (n : Nat) : '\n' ∉ (natRepr n).data := by
  intro hmem
  have hall := natReprAux_all_digits (Nat.lt_succ_self n)
  have := List.all_eq_true.mp hall _ hmem
  exact absurd (by simpa using this) (by decide)

theorem natRepr_data_ne_nil (n : Nat) : (natRepr n).data ≠ [] :=
  natReprAux_ne_nil (Nat.lt_succ_self n)

theorem natRepr_last_not_space (n : Nat) :
    ∀ ch, (natRepr n).data.getLast? = some ch → isPySpace ch = false := by
  intro ch hch
  have hmem : ch ∈ (natRepr n).data := by
    have hne := natRepr_data_ne_nil n
    rw [List.getLast?_eq_getLast _ hne] at hch
    have h2 : (natRepr n).data.getLast hne ∈ (natRepr n).data := List.getLast_mem hne
    have h3 : (natRepr n).data.getLast hne = ch := by simpa using hch
    rwa [h3] at h2
  have hall := natReprAux_all_digits (Nat.lt_succ_self n)
  exact not_isPySpace_of_isDigitCh (by simpa using List.all_eq_true.mp hall _ hmem)

theorem parseSidecar_sidecarText (h : String) (n : Nat)
    (hnl : '\n' ∉ h.data) (hne : h.data ≠ [])
    (hlast : ∀ ch, h.data.getLast? = some ch → isPySpace ch = false) :
    parseSidecar (sidecarText h n) = .ok (some h, some (n : Int)) := by
  have hdata : (sidecarText h n).data =
      ("HASH: ".data ++ h.data) ++ '\n' ::
        (("SIZE: ".data ++ (natRepr n).data) ++ '\n' :: []) := by
    show ("HASH: " ++ h ++ "\n" ++ "SIZE: " ++ natRepr n ++ "\n").data = _
    simp [string_data_append]
  have hnl1 : '\n' ∉ "HASH: ".data ++ h.data := by
    intro hmem
    rcases List.mem_append.mp hmem with hmem | hmem
    · exact absurd hmem (by decide)
    · exact hnl hmem
  have hnl2 : '\n' ∉ "SIZE: ".data ++ (natRepr n).data := by
    intro hmem
    rcases List.mem_append.mp hmem with hmem | hmem
    · exact absurd hmem (by decide)
    · exact natRepr_no_newline n hmem
  have hlines : splitLinesL (sidecarText h n).data =
      [("HASH: ".data ++ h.data), ("SIZE: ".data ++ (natRepr n).data), []] := by
    rw [hdata, splitLinesL_append_newline _ hnl1, splitLinesL_append_newline _ hnl2]
    rfl
  have hstrip1 : pyStripL ("HASH: ".data ++ h.data) = "HASH: ".data ++ h.data := by
    apply pyStripL_eq_self
    · intro ch hch
      rw [List.head?_append_of_ne_nil _ (by decide)] at hch
      have : ch = 'H' := by
        have : ("HASH: ".data).head? = some 'H' := by decide
        rw [this] at hch; simpa using hch.symm
      subst this; decide
    · intro ch hch
      rw [List.getLast?_append_of_ne_nil _ hne] at hch
      exact hlast ch hch
  have hstrip2 : pyStripL ("SIZE: ".data ++ (natRepr n).data) =
      "SIZE: ".data ++ (natRepr n).data := by
    apply pyStripL_eq_self
    · intro ch hch
      rw [List.head?_append_of_ne_nil _ (by decide)] at hch
      have : ch = 'S' := by
        have : ("SIZE: ".data).head? = some 'S' := by decide
        rw [this] at hch; simpa using hch.symm
      subst this; decide
    · intro ch hch
      rw [List.getLast?_append_of_ne_nil _ (natRepr_data_ne_nil n)] at hch
      exact natRepr_last_not_space n ch hch
  have hpre1 : ("HASH: ".data).isPrefixOf ("HASH: ".data ++ h.data) = true := by
    simp only [List.isPrefixOf_iff_prefix]
    exact List.prefix_append _ _
  have hpre2 : ("HASH: ".data).isPrefixOf ("SIZE: ".data ++ (natRepr n).data) = false := by
    rw [Bool.eq_false_iff]
    intro hpre
    rw [List.isPrefixOf_iff_prefix] at hpre
    rcases hpre with ⟨t, ht⟩
    have hh : ("SIZE: ".data ++ (natRepr n).data).head? = some 'S' := by
      rw [List.head?_append_of_ne_nil _ (by decide)]; decide
    rw [← ht, List.head?_append_of_ne_nil _ (by decide)] at hh
    have hh2 : some 'H' = some 'S' := by
      rw [← hh]
      decide
    exact absurd (Option.some.inj hh2) (by decide)
  have hpre3 : ("SIZE: ".data).isPrefixOf ("SIZE: ".data ++ (natRepr n).data) = true := by
    simp only [List.isPrefixOf_iff_prefix]
    exact List.prefix_append _ _
  have hdrop1 : ("HASH: ".data ++ h.data).drop 6 = h.data := by
    have h6 : ("HASH: ".data).length = 6 := by decide
    rw [← h6]
    exact List.drop_left _ _
  have hdrop2 : ("SIZE: ".data ++ (natRepr n).data).drop 6 = (natRepr n).data := by
    have h6 : ("SIZE: ".data).length = 6 := by decide
    rw [← h6]
    exact List.drop_left _ _
  have heta : (⟨h.data⟩ : String) = h := string_ext rfl
  unfold parseSidecar
  rw [hlines]
  simp only [parseSidecarLines, hstrip1, hstrip2, hpre1, hpre2, hpre3, hdrop1, hdrop2,
    pyIntL_natRepr, heta, if_true, if_false, Bool.false_eq_true, Bool.true_eq_false]
  rw [show pyStripL ([] : List Char) = [] from rfl]
  rw [if_neg (by decide), if_neg (by decide)]

/-! ## The loader reconstructs one record per stored entry -/

theorem loadEntry_ok_step (base : String) (acc : Dict) (e : StoreEntry)
    (hlen : (entryAbs base e).length ≤ 255)
    (hparse : pyEndsWith e.name ".hash" = true → ∃ pr, parseSidecar e.content = .ok pr) :
    loadEntry base acc e = .ok (dictInsert acc (loadTargetKey e) (loadRecord e)) := by
  have hlen2 : ¬ (pyJoin (dirAbs base e.relDir) e.name).length > 255 := by
    have h255 : (pyJoin (dirAbs base e.relDir) e.name).length ≤ 255 := hlen
    omega
  unfold loadEntry
  rw [if_neg hlen2]
  by_cases hsuf : pyEndsWith e.name ".hash" = true
  · obtain ⟨pr, hpr⟩ := hparse hsuf
    obtain ⟨h1, s1⟩ := pr
    rw [if_pos (by simp [hsuf]), hpr]
    unfold loadTargetKey loadRecord
    rw [if_pos hsuf, if_pos hsuf, hpr]
  · rw [if_neg (by simp [hsuf])]
    unfold loadTargetKey loadRecord
    rw [if_neg hsuf, if_neg hsuf]

theorem loadAux_ok_find {base : String} :
    ∀ (st : Store) (acc : Dict),
    (∀ e ∈ st, (entryAbs base e).length ≤ 255) →
    (∀ e ∈ st, pyEndsWith e.name ".hash" = true → ∃ pr, parseSidecar e.content = .ok pr) →
    ∃ info, loadAux base acc st = .ok info ∧
      (∀ k, (∀ e ∈ st, loadTargetKey e ≠ k) → dictFind info k = dictFind acc k) ∧
      ((st.map loadTargetKey).Nodup →
        ∀ e ∈ st, dictFind info (loadTargetKey e) = some (loadRecord e)) := by
  intro st
  induction st with
  | nil =>
    intro acc _ _
    exact ⟨acc, rfl, fun k _ => rfl, fun _ e he => absurd he (by simp)⟩
  | cons e rest ih =>
    intro acc hlen hparse
    have hstep := loadEntry_ok_step base acc e
      (hlen e (by simp)) (hparse e (by simp))
    obtain ⟨info, hinfo, huntouched, hfound⟩ :=
      ih (dictInsert acc (loadTargetKey e) (loadRecord e))
        (fun e' he' => hlen e' (by simp [he']))
        (fun e' he' => hparse e' (by simp [he']))
    refine ⟨info, ?_, ?_, ?_⟩
    · show (match loadEntry base acc e with
        | Except.error err => Except.error err
        | Except.ok info' => loadAux base info' rest) = Except.ok info
      rw [hstep]
      exact hinfo
    · intro k hk
      rw [huntouched k (fun e' he' => hk e' (by simp [he']))]
      rw [dictFind_dictInsert, if_neg (hk e (by simp))]
    · intro hnd e' he'
      have hnd' : (rest.map loadTargetKey).Nodup := by
        rw [List.map_cons] at hnd
        exact hnd.of_cons
      rcases List.mem_cons.mp he' with rfl | he'
      · have hnotin : ∀ e2 ∈ rest, loadTargetKey e2 ≠ loadTargetKey e' := by
          intro e2 he2 hc
          rw [List.map_cons] at hnd
          exact (List.nodup_cons.mp hnd).1 (hc ▸ List.mem_map_of_mem loadTargetKey he2)
        rw [huntouched _ hnotin, dictFind_dictInsert, if_pos rfl]
      · exact hfound hnd' e' he'

/-! ## Assembly: what Load finds after Build -/

theorem pyDropRight_append_hash (n : String) : pyDropRight (n ++ ".hash") 5 = n := by
  unfold pyDropRight
  apply string_ext
  show (n.data ++ (".hash" : String).data).take ((n.data ++ (".hash" : String).data).length - 5) =
    n.data
  rw [List.length_append]
  have h5 : (".hash" : String).data.length = 5 := by decide
  rw [h5, Nat.add_sub_cancel]
  exact List.take_left _ _

theorem pyEndsWith_append_hash (n : String) : pyEndsWith (n ++ ".hash") ".hash" = true := by
  rw [pyEndsWith_iff]
  show (".hash" : String).data <:+ n.data ++ (".hash" : String).data
  exact List.suffix_append _ _

theorem loadTargetKey_factor (e : StoreEntry) :
    loadTargetKey e =
      (fun p : String × String =>
        if pyEndsWith p.2 ".hash" then pyJoin p.1 (pyDropRight p.2 5) else pyJoin p.1 p.2)
        (entKey e) := rfl

theorem buildList_mem {sha : String → String} {root base : String} {walk : List SrcDir}
    {e : StoreEntry} (he : e ∈ buildList sha root base walk) :
    ∃ d ∈ walk, ∃ f ∈ d.files, buildEntry sha d.relDir f = some e := by
  unfold buildList at he
  obtain ⟨d, hd, he2⟩ := List.mem_flatMap.mp he
  obtain ⟨f, hf, hfe⟩ := List.mem_filterMap.mp he2
  exact ⟨d, (List.mem_filter.mp hd).1, f, hf, hfe⟩

theorem buildList_mem_of {sha : String → String} {root base : String} {walk : List SrcDir}
    {d : SrcDir} (hd : d ∈ walk) (hskip : mode1DirSkip base (dirAbs root d.relDir) = false)
    {f : SrcFile} (hf : f ∈ d.files) {e : StoreEntry}
    (hfe : buildEntry sha d.relDir f = some e) :
    e ∈ buildList sha root base walk := by
  unfold buildList
  refine List.mem_flatMap.mpr ⟨d, List.mem_filter.mpr ⟨hd, by simp [hskip]⟩, ?_⟩
  exact List.mem_filterMap.mpr ⟨f, hf, hfe⟩

theorem mode1Build_eq_buildList (sha : String → String) (root base : String)
    (walk : List SrcDir)
    (hkeys : ((buildList sha root base walk).map loadTargetKey).Nodup) :
    mode1Build sha root base walk [] = buildList sha root base walk := by
  have hKeyEnt : ((buildList sha root base walk).map entKey).Nodup := by
    have h1 : (buildList sha root base walk).map loadTargetKey =
        ((buildList sha root base walk).map entKey).map
          (fun p : String × String =>
            if pyEndsWith p.2 ".hash" then pyJoin p.1 (pyDropRight p.2 5)
            else pyJoin p.1 p.2) := by
      rw [List.map_map]
      rfl
    rw [h1] at hkeys
    exact hkeys.of_map
  have := mode1Build_eq_append sha root base walk [] (by simpa using hKeyEnt)
  simpa using this

theorem storeFindAbs_unique {base : String} {st : Store} {e : StoreEntry}
    (he : e ∈ st) (huniq : ∀ e' ∈ st, entryAbs base e' = entryAbs base e → e' = e) :
    storeFindAbs base st (entryAbs base e) = some e.content := by
  induction st with
  | nil => simp at he
  | cons g rest ih =>
    show (if entryAbs base g = entryAbs base e then some g.content
      else storeFindAbs base rest (entryAbs base e)) = some e.content
    by_cases hg : entryAbs base g = entryAbs base e
    · have hge : g = e := huniq g (by simp) hg
      subst hge
      rw [if_pos hg]
    · rw [if_neg hg]
      rcases List.mem_cons.mp he with rfl | he2
      · exact absurd rfl hg
      · exact ih he2 (fun e' he' => huniq e' (by simp [he']))

theorem buildLoad_find (sha : String → String) (root base : String) (walk : List SrcDir)
    (hsha : ∀ c, '\n' ∉ (sha c).data ∧ (sha c).data ≠ [] ∧
      (∀ ch, (sha c).data.getLast? = some ch → isPySpace ch = false))
    (hnames : ∀ d ∈ walk, ∀ f ∈ d.files, pyEndsWith f.name ".hash" = false)
    (hkeys : ((buildList sha root base walk).map loadTargetKey).Nodup)
    (hlen : ∀ e ∈ buildList sha root base walk, (entryAbs base e).length ≤ 255) :
    ∃ info, loadBaseline base (mode1Build sha root base walk []) = .ok info ∧
      ∀ d ∈ walk, mode1DirSkip base (dirAbs root d.relDir) = false →
      ∀ f ∈ d.files, f.isFile = true → ∀ c, f.read = .ok c →
        (c.length > SIZE_THRESHOLD →
          dictFind info (pyJoin d.relDir f.name) =
            some ⟨true, some (sha c), some (c.length : Int)⟩) ∧
        (¬ c.length > SIZE_THRESHOLD →
          dictFind info (pyJoin d.relDir f.name) =
            some ⟨false, none, some (c.length : Int)⟩) := by
  have hstore : mode1Build sha root base walk [] = buildList sha root base walk :=
    mode1Build_eq_buildList sha root base walk hkeys
  have hparse : ∀ e ∈ buildList sha root base walk,
      pyEndsWith e.name ".hash" = true → ∃ pr, parseSidecar e.content = .ok pr := by
    intro e he hsuf
    obtain ⟨d, hd, f, hf, hfe⟩ := buildList_mem he
    unfold buildEntry at hfe
    by_cases hreg : (!f.isFile) = true
    · rw [if_pos hreg] at hfe; cases hfe
    · rw [if_neg hreg] at hfe
      cases hr : f.read with
      | error err => simp [hr] at hfe
      | ok c =>
        simp only [hr] at hfe
        by_cases hbig : c.length > SIZE_THRESHOLD
        · rw [if_pos hbig] at hfe
          simp only [Option.some.injEq] at hfe
          obtain ⟨hnl, hne, hlast⟩ := hsha c
          exact ⟨(some (sha c), some (c.length : Int)), by
            rw [← hfe]
            exact parseSidecar_sidecarText (sha c) c.length hnl hne hlast⟩
        · rw [if_neg hbig] at hfe
          simp only [Option.some.injEq] at hfe
          rw [← hfe] at hsuf
          exact absurd hsuf (by simp [hnames d hd f hf])
  obtain ⟨info, hinfo, huntouched, hfound⟩ :=
    loadAux_ok_find (buildList sha root base walk) [] hlen hparse
  refine ⟨info, by rw [hstore]; exact hinfo, ?_⟩
  intro d hd hskip f hf hreg c hread
  constructor
  · intro hbig
    have hfe : buildEntry sha d.relDir f =
        some ⟨d.relDir, f.name ++ ".hash", sidecarText (sha c) c.length⟩ := by
      unfold buildEntry
      rw [if_neg (by simp [hreg])]
      simp only [hread]
      rw [if_pos hbig]
    have hmem := buildList_mem_of hd hskip hf hfe
    have hfind := hfound hkeys _ hmem
    have htarget : loadTargetKey ⟨d.relDir, f.name ++ ".hash", sidecarText (sha c) c.length⟩ =
        pyJoin d.relDir f.name := by
      unfold loadTargetKey
      rw [if_pos (by simpa using pyEndsWith_append_hash f.name)]
      rw [show (⟨d.relDir, f.name ++ ".hash", sidecarText (sha c) c.length⟩ :
        StoreEntry).name = f.name ++ ".hash" from rfl]
      rw [pyDropRight_append_hash]
    have hrecord : loadRecord ⟨d.relDir, f.name ++ ".hash", sidecarText (sha c) c.length⟩ =
        ⟨true, some (sha c), some (c.length : Int)⟩ := by
      unfold loadRecord
      rw [if_pos (by simpa using pyEndsWith_append_hash f.name)]
      obtain ⟨hnl, hne, hlast⟩ := hsha c
      rw [show (⟨d.relDir, f.name ++ ".hash", sidecarText (sha c) c.length⟩ :
        StoreEntry).content = sidecarText (sha c) c.length from rfl]
      rw [parseSidecar_sidecarText (sha c) c.length hnl hne hlast]
    rw [htarget, hrecord] at hfind
    exact hfind
  · intro hbig
    have hfe : buildEntry sha d.relDir f = some ⟨d.relDir, f.name, c⟩ := by
      unfold buildEntry
      rw [if_neg (by simp [hreg])]
      simp only [hread]
      rw [if_neg hbig]
    have hmem := buildList_mem_of hd hskip hf hfe
    have hfind := hfound hkeys _ hmem
    have htarget : loadTargetKey ⟨d.relDir, f.name, c⟩ = pyJoin d.relDir f.name := by
      unfold loadTargetKey
      rw [if_neg (by simp [hnames d hd f hf])]
    have hrecord : loadRecord ⟨d.relDir, f.name, c⟩ =
        ⟨false, none, some (c.length : Int)⟩ := by
      unfold loadRecord
      rw [if_neg (by simp [hnames d hd f hf])]
    rw [htarget, hrecord] at hfind
    exact hfind

/-! ## C7: the Build -> Load round trip claim -/

/-- C7 counterexample: a source tree containing a *small* file literally
named `x.hash` breaks the round trip.  Build copies it verbatim, but Load
treats any `.hash`-named file as a sidecar: `x.hash` disappears from the
index (its built path maps to nothing) and a spurious Large record with
absent digest appears under `x` instead. -/
theorem c7_counterexample :
    mode1Build (fun _ => "h") "/r" "/b" [⟨"", [⟨"x.hash", true, .ok "hi"⟩]⟩] [] =
      [⟨"", "x.hash", "hi"⟩] ∧
    loadBaseline "/b" [⟨"", "x.hash", "hi"⟩] = .ok [("x", ⟨true, none, none⟩)] ∧
    dictFind [("x", ⟨true, none, none⟩)] "x.hash" = none := by
  refine ⟨rfl, rfl, rfl⟩

/-- C7 amended: provided no source file's name ends in `.hash`, the
stored paths fit the loader's 255-character ceiling, the built entries'
index keys do not collide, and the digest function emits newline-free,
non-whitespace-terminated, non-empty strings (all true of hex digests),
loading the snapshot produced by Build reconstructs exactly the records
Build created: every file of a non-skipped walked directory appears in the
loaded index under its build-time relative path, large files as `Large`
records carrying the stored digest and the build-time size, files at or
under the threshold as `Small` records whose size equals the file's
on-disk size at build time. -/
theorem c7_build_load_roundtrip (sha : String → String) (root base : String)
    (walk : List SrcDir)
    (hsha : ∀ c, '\n' ∉ (sha c).data ∧ (sha c).data ≠ [] ∧
      (∀ ch, (sha c).data.getLast? = some ch → isPySpace ch = false))
    (hnames : ∀ d ∈ walk, ∀ f ∈ d.files, pyEndsWith f.name ".hash" = false)
    (hkeys : ((buildList sha root base walk).map loadTargetKey).Nodup)
    (hlen : ∀ e ∈ buildList sha root base walk, (entryAbs base e).length ≤ 255) :
    ∃ info, loadBaseline base (mode1Build sha root base walk []) = .ok info ∧
      ∀ d ∈ walk, mode1DirSkip base (dirAbs root d.relDir) = false →
      ∀ f ∈ d.files, f.isFile = true → ∀ c, f.read = .ok c →
        (c.length > SIZE_THRESHOLD →
          dictFind info (pyJoin d.relDir f.name) =
            some ⟨true, some (sha c), some (c.length : Int)⟩) ∧
        (¬ c.length > SIZE_THRESHOLD →
          dictFind info (pyJoin d.relDir f.name) =
            some ⟨false, none, some (c.length : Int)⟩) :=
  buildLoad_find sha root base walk hsha hnames hkeys hlen

/-- Witness for C7 amended: a tree with one small and one large file. -/
theorem c7_build_load_roundtrip_witness :
    ∃ info, loadBaseline "/b" (mode1Build (fun _ => "h") "/r" "/b"
        [⟨"", [⟨"a.txt", true, .ok "hi"⟩]⟩] []) = .ok info ∧
      ∀ d ∈ [(⟨"", [⟨"a.txt", true, .ok "hi"⟩]⟩ : SrcDir)],
        mode1DirSkip "/b" (dirAbs "/r" d.relDir) = false →
      ∀ f ∈ d.files, f.isFile = true → ∀ c, f.read = .ok c →
        (c.length > SIZE_THRESHOLD →
          dictFind info (pyJoin d.relDir f.name) =
            some ⟨true, some ((fun _ => "h") c), some (c.length : Int)⟩) ∧
        (¬ c.length > SIZE_THRESHOLD →
          dictFind info (pyJoin d.relDir f.name) =
            some ⟨false, none, some (c.length : Int)⟩) := by
  exact c7_build_load_roundtrip (fun _ => "h") "/r" "/b"
    [⟨"", [⟨"a.txt", true, .ok "hi"⟩]⟩]
    (fun c => ⟨(by decide : '\n' ∉ ("h" : String).data),
      (by decide : ("h" : String).data ≠ []),
      (by decide : ∀ ch, ("h" : String).data.getLast? = some ch → isPySpace ch = false)⟩)
    (by decide) (by decide) (by decide)

/-! ## C8: Build, Load, Diff an unmodified source -/

/-- C8 amended: under the same well-formedness provisos as C7 (no
`.hash`-suffixed names, stored paths within the 255 ceiling, no key or
absolute-path collisions, a well-behaved digest function, shaped paths),
a source file of size at or above the 1 MiB threshold that is walked by
both Build and Diff is classified `UNCHANGED` by the diff against the
unmodified source: strictly-large files through the recomputed-digest
comparison against the sidecar, exactly-at-threshold files through the
digest-of-both comparison against the stored full copy. -/
theorem c8_build_load_diff_unchanged (sha : String → String) (root base : String)
    (walk : List SrcDir) (info : Dict)
    (hsha : ∀ c, '\n' ∉ (sha c).data ∧ (sha c).data ≠ [] ∧
      (∀ ch, (sha c).data.getLast? = some ch → isPySpace ch = false))
    (hnames : ∀ d ∈ walk, ∀ f ∈ d.files, pyEndsWith f.name ".hash" = false)
    (hkeys : ((buildList sha root base walk).map loadTargetKey).Nodup)
    (hlenstore : ∀ e ∈ buildList sha root base walk, (entryAbs base e).length ≤ 255)
    (hinfo : loadBaseline base (mode1Build sha root base walk []) = .ok info)
    (huniq : ∀ e1 ∈ buildList sha root base walk, ∀ e2 ∈ buildList sha root base walk,
      entryAbs base e1 = entryAbs base e2 → e1 = e2)
    (hb1 : base ≠ "") (hb2 : pyEndsWith base "/" = false)
    (d : SrcDir) (hd : d ∈ walk)
    (hskip : mode1DirSkip base (dirAbs root d.relDir) = false)
    (hd1 : pyStartsWith d.relDir "/" = false) (hd2 : pyEndsWith d.relDir "/" = false)
    (f : SrcFile) (hf : f ∈ d.files) (hreg : f.isFile = true) (c : String)
    (hread : f.read = .ok c) (_hat : c.length ≥ SIZE_THRESHOLD)
    (hn1 : pyStartsWith f.name "/" = false)
    (hlive : (pyJoin (dirAbs root d.relDir) f.name).length ≤ 255) :
    mode2File sha root base (mode1Build sha root base walk []) info d.relDir
      ⟨f.name, f.isFile, f.read⟩ =
      .ok (some (.unchanged (pyJoin (dirAbs root d.relDir) f.name)),
        some (pyJoin d.relDir f.name)) := by
  obtain ⟨info2, hload2, hfind2⟩ := buildLoad_find sha root base walk hsha hnames hkeys hlenstore
  have hinfo2 : info2 = info := by
    rw [hload2] at hinfo
    simpa using hinfo
  subst hinfo2
  have hfinds := hfind2 d hd hskip f hf hreg c hread
  have hc : ¬ (pyJoin (dirAbs root d.relDir) f.name).length > 255 := by omega
  by_cases hbig : c.length > SIZE_THRESHOLD
  · have hfind := hfinds.1 hbig
    have hmatch : hashMatches (sha c) (some (sha c)) = true := by
      simp [hashMatches]
    simp [mode2File, hc, hreg, hfind, hread, hmatch]
  · have hfind := hfinds.2 hbig
    have hstore : mode1Build sha root base walk [] = buildList sha root base walk :=
      mode1Build_eq_buildList sha root base walk hkeys
    have hfe : buildEntry sha d.relDir f = some ⟨d.relDir, f.name, c⟩ := by
      unfold buildEntry
      rw [if_neg (by simp [hreg])]
      simp only [hread]
      rw [if_neg hbig]
    have hmem := buildList_mem_of hd hskip hf hfe
    have habs : pyJoin base (pyJoin d.relDir f.name) =
        entryAbs base (⟨d.relDir, f.name, c⟩ : StoreEntry) :=
      (pyJoin_dirAbs hb1 hb2 hd1 hd2 hn1).symm
    have hcopy : storeFindAbs base (mode1Build sha root base walk [])
        (pyJoin base (pyJoin d.relDir f.name)) = some c := by
      rw [hstore, habs]
      exact storeFindAbs_unique hmem
        (fun e' he' heq => huniq e' he' _ hmem heq)
    simp [mode2File, hc, hreg, hfind, hread, hcopy]

/-- A 250-character file name: under storage root `/b` its sidecar path
`/b/<name>.hash` is 258 characters (over the loader's ceiling) while its
live path `/r/<name>` is 253 characters (inside the walk's ceiling). -/
def longName250 : String := ⟨List.replicate 250 'a'⟩

/-- A file content one byte over the 1 MiB threshold. -/
def bigContent : String := ⟨List.replicate 1048577 'a'⟩

set_option maxRecDepth 100000 in
/-- C8 counterexample: a file strictly above the threshold whose sidecar's
stored absolute path is longer than 255 characters.  Build writes the
sidecar, but Load silently skips it, so a diff against the byte-identical
unmodified source reports the file as `NEW` — not `Unchanged` as the
claim states. -/
theorem c8_counterexample :
    bigContent.length = 1048577 ∧ 1048577 > SIZE_THRESHOLD ∧
    (pyJoin (dirAbs "/r" "") longName250).length = 253 ∧
    (entryAbs "/b" ⟨"", longName250 ++ ".hash", sidecarText "h" 1048577⟩).length = 258 ∧
    mode2Run (fun _ => "h") "/r" "/b"
      (mode1Build (fun _ => "h") "/r" "/b" [⟨"", [⟨longName250, true, .ok bigContent⟩]⟩] [])
      [⟨"", [⟨longName250, true, .ok bigContent⟩]⟩] =
      .ok ([DiffOut.newF (pyJoin (dirAbs "/r" "") longName250)], [pyJoin "" longName250]) := by
  have h1 : bigContent.length = 1048577 := List.length_replicate 1048577 'a'
  refine ⟨h1, by decide, by decide, by decide, ?_⟩
  have hstore : mode1Build (fun _ => "h") "/r" "/b"
      [⟨"", [⟨longName250, true, .ok bigContent⟩]⟩] [] =
      [⟨"", longName250 ++ ".hash", sidecarText "h" 1048577⟩] := by
    show mode1Dir (fun _ => "h") "/r" "/b" [] ⟨"", [⟨longName250, true, .ok bigContent⟩]⟩ = _
    unfold mode1Dir
    rw [if_neg (by decide)]
    show mode1ProcessFile (fun _ => "h") [] "" ⟨longName250, true, .ok bigContent⟩ = _
    unfold mode1ProcessFile
    rw [if_neg (by decide)]
    show (if bigContent.length > SIZE_THRESHOLD then
        storeInsert [] "" (longName250 ++ ".hash") (sidecarText "h" bigContent.length)
      else storeInsert [] "" longName250 bigContent) = _
    rw [if_pos (by rw [h1]; decide), h1]
    rfl
  rw [hstore]
  rfl

/-- A file content of exactly the 1 MiB threshold. -/
def atThresholdContent : String := ⟨List.replicate 1048576 'a'⟩

/-- Witness for C8 amended: a well-formed tree with one file of exactly
the threshold size; the diff against the unmodified source classifies it
`UNCHANGED`. -/
theorem c8_build_load_diff_unchanged_witness :
    mode2File (fun _ => "h") "/r" "/b"
      (mode1Build (fun _ => "h") "/r" "/b"
        [⟨"", [⟨"big", true, .ok atThresholdContent⟩]⟩] [])
      [("big", ⟨false, none, some 1048576⟩)] "" ⟨"big", true, .ok atThresholdContent⟩ =
      .ok (some (.unchanged (pyJoin (dirAbs "/r" "") "big")), some (pyJoin "" "big")) := by
  have hlen : atThresholdContent.length = 1048576 := List.length_replicate 1048576 'a'
  have hsk : mode1DirSkip "/b" (dirAbs "/r" "") = false := by decide
  have hbe : buildEntry (fun _ => "h") "" ⟨"big", true, .ok atThresholdContent⟩ =
      some ⟨"", "big", atThresholdContent⟩ := by
    unfold buildEntry
    rw [if_neg (by decide)]
    show (if atThresholdContent.length > SIZE_THRESHOLD then _ else _) = _
    rw [if_neg (by rw [hlen]; decide)]
  have hbl : buildList (fun _ => "h") "/r" "/b"
      [⟨"", [⟨"big", true, .ok atThresholdContent⟩]⟩] =
      [⟨"", "big", atThresholdContent⟩] := by
    unfold buildList
    rw [List.filter_cons, if_pos (by rw [hsk]; rfl)]
    rw [show List.filter (fun d => !mode1DirSkip "/b" (dirAbs "/r" d.relDir))
      ([] : List SrcDir) = [] from rfl]
    rw [List.flatMap_cons]
    show List.filterMap (buildEntry (fun _ => "h") "")
        [⟨"big", true, .ok atThresholdContent⟩] ++ [] = _
    rw [List.filterMap_cons_some hbe]
    rfl
  have hkeys : ((buildList (fun _ => "h") "/r" "/b"
      [⟨"", [⟨"big", true, .ok atThresholdContent⟩]⟩]).map loadTargetKey).Nodup := by
    rw [hbl]
    exact List.nodup_singleton _
  have hstoreEq : mode1Build (fun _ => "h") "/r" "/b"
      [⟨"", [⟨"big", true, .ok atThresholdContent⟩]⟩] [] =
      [⟨"", "big", atThresholdContent⟩] :=
    (mode1Build_eq_buildList _ _ _ _ hkeys).trans hbl
  have hload : loadBaseline "/b" (mode1Build (fun _ => "h") "/r" "/b"
      [⟨"", [⟨"big", true, .ok atThresholdContent⟩]⟩] []) =
      .ok [("big", ⟨false, none, some 1048576⟩)] := by
    rw [hstoreEq]
    have hstep := loadEntry_ok_step "/b" [] ⟨"", "big", atThresholdContent⟩ (by decide)
      (fun hsuf => absurd hsuf (by decide))
    have htk : loadTargetKey (⟨"", "big", atThresholdContent⟩ : StoreEntry) = "big" := by
      decide
    have hrec : loadRecord (⟨"", "big", atThresholdContent⟩ : StoreEntry) =
        ⟨false, none, some (1048576 : Int)⟩ := by
      unfold loadRecord
      rw [if_neg (by decide)]
      have hc : (⟨"", "big", atThresholdContent⟩ : StoreEntry).content.length = 1048576 := hlen
      rw [hc]
      rfl
    show (match loadEntry "/b" [] ⟨"", "big", atThresholdContent⟩ with
        | Except.error err => Except.error err
        | Except.ok info' => loadAux "/b" info' []) = _
    rw [hstep, htk, hrec]
    rfl
  exact c8_build_load_diff_unchanged (fun _ => "h") "/r" "/b"
    [⟨"", [⟨"big", true, .ok atThresholdContent⟩]⟩]
    [("big", ⟨false, none, some 1048576⟩)]
    (fun c => ⟨(by decide : '\n' ∉ ("h" : String).data),
      (by decide : ("h" : String).data ≠ []),
      (by decide : ∀ ch, ("h" : String).data.getLast? = some ch → isPySpace ch = false)⟩)
    (by decide) hkeys
    (by rw [hbl]; intro e he; simp at he; subst he; decide)
    hload
    (by rw [hbl]; intro e1 he1 e2 he2 _; simp at he1 he2; rw [he1, he2])
    (by decide) (by decide)
    ⟨"", [⟨"big", true, .ok atThresholdContent⟩]⟩ (by simp) hsk
    (by decide) (by decide)
    ⟨"big", true, .ok atThresholdContent⟩ (by simp) rfl atThresholdContent rfl
    (by rw [hlen]; decide) (by decide) (by decide)

end Basher